import Mathlib

/-!
# Accounts-Payable agent: the upload pipeline of `src/App.jsx`

A shallow embedding of `handleFileUpload`, `processPDF` and
`extractTextFromImage`.  JavaScript strings are modelled as `List Char`;
the strings inside a parsed JSON value are kept as UTF-16 code units.
The outcome of every call into a library or a remote service (pdf.js,
Tesseract, the two `axios.post` requests, `URLSearchParams`) is a field of
`World`; the code's own control flow, string surgery and notifications are
definitions.  A run is the list of `Effect`s it performs, in order.
-/

namespace App

/-! ## Text primitives used by lines 58 and 83-86 -/

/-- ECMAScript `WhiteSpace` and `LineTerminator` code points: what
`String.prototype.trim` removes and what `\s` matches. -/
def isJsWhiteSpace (c : Char) : Bool :=
  c.toNat = 0x09 || c.toNat = 0x0A || c.toNat = 0x0B || c.toNat = 0x0C || c.toNat = 0x0D ||
  c.toNat = 0x20 || c.toNat = 0xA0 || c.toNat = 0x1680 ||
  (0x2000 ≤ c.toNat && c.toNat ≤ 0x200A) ||
  c.toNat = 0x2028 || c.toNat = 0x2029 || c.toNat = 0x202F || c.toNat = 0x205F ||
  c.toNat = 0x3000 || c.toNat = 0xFEFF

/-- `String.prototype.trim`. -/
def trim (s : List Char) : List Char :=
  (s.dropWhile isJsWhiteSpace).rdropWhile isJsWhiteSpace

/-- `String.prototype.startsWith`. -/
def startsWith (s p : List Char) : Bool := p.isPrefixOf s

/-- The opening marker tested on line 84 and matched by the first regular
expression on line 85. -/
def fenceOpen : List Char := "```json".toList

/-- The closing marker matched by the second regular expression on line 85. -/
def fenceClose : List Char := "```".toList

/-- `s.replace(/^```json\s*/, "")`: when `s` begins with the opening marker,
the marker and the longest run of white space after it are removed;
otherwise `s` is returned as it is. -/
def replaceOpenFence (s : List Char) : List Char :=
  if startsWith s fenceOpen then (s.drop fenceOpen.length).dropWhile isJsWhiteSpace else s

/-- `s.replace(/```$/, "")`: when `s` ends with three backticks they are
removed; otherwise `s` is returned as it is. -/
def replaceCloseFence (s : List Char) : List Char :=
  if fenceClose.isSuffixOf s then s.take (s.length - fenceClose.length) else s

/-- Lines 83-86: the text handed to `JSON.parse`, computed from
`response.data.choices[0].message.content`. -/
def structuredData (content : List Char) : List Char :=
  let s := trim content
  if startsWith s fenceOpen then trim (replaceCloseFence (replaceOpenFence s)) else s

/-! ## `JSON.parse` (ECMA-404 grammar, ECMAScript values), a character-driven pushdown automaton -/

/-- An ECMAScript Number that `JSON.parse` can return: `finite neg mant exp`
is `mant * 2 ^ exp`, negated when `neg`, with `mant` odd, or zero as
`finite neg 0 0`; `infinity` is what a literal beyond the double range
rounds to. -/
inductive JsNumber where
  | finite (neg : Bool) (mant : Nat) (exp : Int) : JsNumber
  | infinity (neg : Bool) : JsNumber
  deriving DecidableEq

/-- The value `JSON.parse` returns.  Strings and property names are
sequences of UTF-16 code units.  An object lists its own properties in
property order: array-index names ascending, then the other names in order
of creation. -/
inductive Json where
  | null : Json
  | bool : Bool → Json
  | num : JsNumber → Json
  | str : List Nat → Json
  | arr : List Json → Json
  | obj : List (List Nat × Json) → Json

/-- UTF-16 code units of a character. -/
def utf16 (c : Char) : List Nat :=
  if c.toNat < 0x10000 then [c.toNat]
  else [0xD800 + (c.toNat - 0x10000) / 0x400, 0xDC00 + (c.toNat - 0x10000) % 0x400]

/-- The character of one code unit; a surrogate on its own is shown as
U+FFFD, which is also what a conversion to `USVString` makes of it. -/
def unitChar (u : Nat) : Char :=
  if 0xD800 ≤ u ∧ u ≤ 0xDFFF then Char.ofNat 0xFFFD else Char.ofNat u

/-- Code units read as text, a surrogate pair as one character. -/
def decodeUtf16 : List Nat → List Char
  | [] => []
  | [u] => [unitChar u]
  | h :: l :: rest =>
    if 0xD800 ≤ h ∧ h ≤ 0xDBFF ∧ 0xDC00 ≤ l ∧ l ≤ 0xDFFF then
      Char.ofNat (0x10000 + (h - 0xD800) * 0x400 + (l - 0xDC00)) :: decodeUtf16 rest
    else unitChar h :: decodeUtf16 (l :: rest)

/-- The property names of a parsed value, as text (none unless it is an
object). -/
def Json.keys : Json → List (List Char)
  | .obj ms => ms.map fun m => decodeUtf16 m.1
  | _ => []

/-- JSON insignificant white space: space, tab, line feed, carriage return. -/
def isJsonWs (c : Char) : Bool :=
  c.toNat = 0x20 || c.toNat = 0x09 || c.toNat = 0x0A || c.toNat = 0x0D

def isDigit (c : Char) : Bool := 0x30 ≤ c.toNat && c.toNat ≤ 0x39

def isDigit19 (c : Char) : Bool := 0x31 ≤ c.toNat && c.toNat ≤ 0x39

def hexVal (c : Char) : Option Nat :=
  if isDigit c then some (c.toNat - 0x30)
  else if 0x41 ≤ c.toNat && c.toNat ≤ 0x46 then some (c.toNat - 0x41 + 10)
  else if 0x61 ≤ c.toNat && c.toNat ≤ 0x66 then some (c.toNat - 0x61 + 10)
  else none

/-! ### Numbers -/

/-- A number literal as read so far: it denotes
`digits * 10 ^ (exp - scale)`, with `exp` negated when `expNeg`, and the
whole negated when `neg`. -/
structure NumLit where
  neg : Bool
  digits : Nat
  scale : Nat
  expNeg : Bool
  exp : Nat

/-- Progress inside a number literal. -/
inductive NumState where
  | minus | zero | int | dot | frac | e | esign | exp
  deriving DecidableEq

/-- The number grammar `-? (0 | [1-9][0-9]*) (. [0-9]+)? ([eE] [+-]? [0-9]+)?`. -/
def numStep (ns : NumState) (c : Char) : Option NumState :=
  match ns with
  | .minus => if c = '0' then some .zero else if isDigit19 c then some .int else none
  | .zero => if c = '.' then some .dot else if c = 'e' ∨ c = 'E' then some .e else none
  | .int =>
    if isDigit c then some .int else if c = '.' then some .dot
    else if c = 'e' ∨ c = 'E' then some .e else none
  | .dot => if isDigit c then some .frac else none
  | .frac => if isDigit c then some .frac else if c = 'e' ∨ c = 'E' then some .e else none
  | .e => if c = '+' ∨ c = '-' then some .esign else if isDigit c then some .exp else none
  | .esign => if isDigit c then some .exp else none
  | .exp => if isDigit c then some .exp else none

/-- The states in which a number literal may end. -/
def numFinal (ns : NumState) : Bool :=
  match ns with
  | .zero | .int | .frac | .exp => true
  | _ => false

/-- Account for the character that led to state `ns`. -/
def NumLit.push (l : NumLit) (ns : NumState) (c : Char) : NumLit :=
  match ns with
  | .zero | .int => { l with digits := 10 * l.digits + (c.toNat - 0x30) }
  | .frac => { l with digits := 10 * l.digits + (c.toNat - 0x30), scale := l.scale + 1 }
  | .esign => { l with expNeg := decide (c = '-') }
  | .exp => { l with exp := 10 * l.exp + (c.toNat - 0x30) }
  | .minus | .dot | .e => l

/-- Divide out the factors of two of a mantissa (at most `fuel` of them). -/
def stripTwos : Nat → Nat → Int → Nat × Int
  | 0, m, e => (m, e)
  | fuel + 1, m, e => if m % 2 = 0 ∧ m ≠ 0 then stripTwos fuel (m / 2) (e + 1) else (m, e)

/-- Binary logarithm, rounded down, by halving (at most `fuel` times). -/
def log2Fuel : Nat → Nat → Nat
  | 0, _ => 0
  | fuel + 1, n => if n < 2 then 0 else log2Fuel fuel (n / 2) + 1

/-- Position of the highest set bit of a positive number. -/
def log2Floor (n : Nat) : Nat := log2Fuel n n

/-- The double nearest to the positive rational `n / d`, ties to even.  The
quotient is scaled by `2 ^ e` so that its integer part `q` has 53 bits, or
fewer at the least exponent `-1074`; `q * 2 ^ e` rounds to zero below half
the least subnormal and to infinity from `2 ^ 1024` on. -/
def roundToDouble (neg : Bool) (n d : Nat) : JsNumber :=
  let e0 : Int := (log2Floor n : Int) - (log2Floor d : Int) - 52
  let e1 : Int := if n * 2 ^ (-e0).toNat < 2 ^ 52 * (d * 2 ^ e0.toNat) then e0 - 1 else e0
  let e : Int := if e1 < -1074 then -1074 else e1
  let num := n * 2 ^ (-e).toNat
  let den := d * 2 ^ e.toNat
  let q := num / den
  let r := num % den
  let q1 := if den < 2 * r ∨ (2 * r = den ∧ q % 2 = 1) then q + 1 else q
  if q1 = 0 then .finite neg 0 0
  else if 1024 ≤ (log2Floor q1 : Int) + e then .infinity neg
  else .finite neg (stripTwos 64 q1 e).1 (stripTwos 64 q1 e).2

/-- The Number a literal denotes: its mathematical value rounded to the
nearest double. -/
def NumLit.value (l : NumLit) : JsNumber :=
  if l.digits = 0 then .finite l.neg 0 0
  else if l.expNeg then roundToDouble l.neg l.digits (10 ^ (l.scale + l.exp))
  else if l.scale ≤ l.exp then roundToDouble l.neg (l.digits * 10 ^ (l.exp - l.scale)) 1
  else roundToDouble l.neg l.digits (10 ^ (l.scale - l.exp))

/-! ### Objects -/

/-- The array index a property name denotes, if any: a canonical decimal
numeral below `2 ^ 32 - 1`. -/
def arrayIndex (k : List Nat) : Option Nat :=
  match k with
  | [] => none
  | [0x30] => some 0
  | d :: ds =>
    if 0x31 ≤ d ∧ d ≤ 0x39 ∧ ds.all (fun u => 0x30 ≤ u && u ≤ 0x39) ∧ ds.length < 10 then
      let n := (d :: ds).foldl (fun n u => 10 * n + (u - 0x30)) 0
      if n < 2 ^ 32 - 1 then some n else none
    else none

/-- Whether a property of that name exists. -/
def hasKey (k : List Nat) : List (List Nat × Json) → Bool
  | [] => false
  | m :: ms => m.1 == k || hasKey k ms

/-- Overwrite the value of the existing property `k`. -/
def setMember (k : List Nat) (v : Json) : List (List Nat × Json) → List (List Nat × Json)
  | [] => []
  | m :: ms => if m.1 = k then (k, v) :: ms else m :: setMember k v ms

/-- Place a new array-index property `k` (index `i`) before the first
property that is not an array index or has a larger index. -/
def insertIndex (i : Nat) (k : List Nat) (v : Json) :
    List (List Nat × Json) → List (List Nat × Json)
  | [] => [(k, v)]
  | m :: ms =>
    match arrayIndex m.1 with
    | some j => if j < i then m :: insertIndex i k v ms else (k, v) :: m :: ms
    | none => (k, v) :: m :: ms

/-- `CreateDataProperty` on the object under construction: an existing
property keeps its place and takes the new value; a new array index goes
among the indices; any other new name goes last. -/
def defineMember (ms : List (List Nat × Json)) (k : List Nat) (v : Json) :
    List (List Nat × Json) :=
  if hasKey k ms then setMember k v ms
  else match arrayIndex k with
    | some i => insertIndex i k v ms
    | none => ms ++ [(k, v)]

/-! ### The automaton -/

/-- An open container on the parser stack. -/
inductive Frame where
  | arr (done : List Json) : Frame
  | obj (done : List (List Nat × Json)) (key : List Nat) : Frame

/-- What the parser expects next. -/
inductive Mode where
  | value : Mode
  | arrStart : Mode
  | objStart : Mode
  | key : Mode
  | colon : Mode
  | afterValue : Mode
  | done (v : Json) : Mode
  | str (isKey : Bool) (acc : List Nat) : Mode
  | esc (isKey : Bool) (acc : List Nat) : Mode
  | uni (isKey : Bool) (acc : List Nat) (hex : List Char) : Mode
  | num (st : NumState) (lit : NumLit) : Mode
  | lit (rest : List Char) (v : Json) : Mode

/-- Parser configuration: open containers (innermost first) and mode. -/
structure PState where
  stack : List Frame
  mode : Mode

/-- A value has been read: attach it to the innermost open container, or
finish when there is none. -/
def complete (v : Json) (stack : List Frame) : PState :=
  match stack with
  | [] => ⟨[], .done v⟩
  | .arr es :: fs => ⟨.arr (es ++ [v]) :: fs, .afterValue⟩
  | .obj ms k :: fs => ⟨.obj (defineMember ms k v) k :: fs, .afterValue⟩

/-- First character of a value. -/
def startValue (stack : List Frame) (c : Char) : Option PState :=
  if c = '{' then some ⟨.obj [] [] :: stack, .objStart⟩
  else if c = '[' then some ⟨.arr [] :: stack, .arrStart⟩
  else if c = '"' then some ⟨stack, .str false []⟩
  else if c = '-' then some ⟨stack, .num .minus ⟨true, 0, 0, false, 0⟩⟩
  else if c = '0' then some ⟨stack, .num .zero ⟨false, 0, 0, false, 0⟩⟩
  else if isDigit19 c then some ⟨stack, .num .int ⟨false, c.toNat - 0x30, 0, false, 0⟩⟩
  else if c = 't' then some ⟨stack, .lit "rue".toList (.bool true)⟩
  else if c = 'f' then some ⟨stack, .lit "alse".toList (.bool false)⟩
  else if c = 'n' then some ⟨stack, .lit "ull".toList .null⟩
  else none

/-- A character after a complete value: a separator, a closing bracket, or
white space. -/
def stepDelim (st : PState) (c : Char) : Option PState :=
  if isJsonWs c then some st
  else match st.mode, st.stack with
    | .afterValue, .arr es :: fs =>
      if c = ',' then some ⟨.arr es :: fs, .value⟩
      else if c = ']' then some (complete (.arr es) fs)
      else none
    | .afterValue, .obj ms k :: fs =>
      if c = ',' then some ⟨.obj ms k :: fs, .key⟩
      else if c = '}' then some (complete (.obj ms) fs)
      else none
    | _, _ => none

/-- A string has been closed: a key is stored in its object frame, a value
is attached. -/
def closeString (isKey : Bool) (acc : List Nat) (stack : List Frame) : Option PState :=
  if isKey then
    match stack with
    | .obj ms _ :: fs => some ⟨.obj ms acc :: fs, .colon⟩
    | _ => none
  else some (complete (.str acc) stack)

/-- The code unit an escape letter stands for. -/
def escapeChar (c : Char) : Option Nat :=
  if c = '"' then some 0x22
  else if c = '\\' then some 0x5C
  else if c = '/' then some 0x2F
  else if c = 'b' then some 0x08
  else if c = 'f' then some 0x0C
  else if c = 'n' then some 0x0A
  else if c = 'r' then some 0x0D
  else if c = 't' then some 0x09
  else none

/-- One character of input. -/
def step (st : PState) (c : Char) : Option PState :=
  match st.mode with
  | .value => if isJsonWs c then some st else startValue st.stack c
  | .arrStart =>
    if isJsonWs c then some st
    else if c = ']' then
      match st.stack with
      | .arr _ :: fs => some (complete (.arr []) fs)
      | _ => none
    else startValue st.stack c
  | .objStart =>
    if isJsonWs c then some st
    else if c = '}' then
      match st.stack with
      | .obj _ _ :: fs => some (complete (.obj []) fs)
      | _ => none
    else if c = '"' then some ⟨st.stack, .str true []⟩
    else none
  | .key =>
    if isJsonWs c then some st
    else if c = '"' then some ⟨st.stack, .str true []⟩
    else none
  | .colon =>
    if isJsonWs c then some st
    else if c = ':' then some ⟨st.stack, .value⟩
    else none
  | .afterValue => stepDelim st c
  | .done _ => if isJsonWs c then some st else none
  | .str isKey acc =>
    if c = '"' then closeString isKey acc st.stack
    else if c = '\\' then some ⟨st.stack, .esc isKey acc⟩
    else if c.toNat < 0x20 then none
    else some ⟨st.stack, .str isKey (acc ++ utf16 c)⟩
  | .esc isKey acc =>
    if c = 'u' then some ⟨st.stack, .uni isKey acc []⟩
    else match escapeChar c with
      | some d => some ⟨st.stack, .str isKey (acc ++ [d])⟩
      | none => none
  | .uni isKey acc hex =>
    match hexVal c with
    | none => none
    | some _ =>
      if hex.length = 3 then
        let code := (hex ++ [c]).foldl (fun n d => 16 * n + (hexVal d).getD 0) 0
        some ⟨st.stack, .str isKey (acc ++ [code])⟩
      else some ⟨st.stack, .uni isKey acc (hex ++ [c])⟩
  | .num ns l =>
    match numStep ns c with
    | some ns' => some ⟨st.stack, .num ns' (l.push ns' c)⟩
    | none =>
      if numFinal ns then stepDelim (complete (.num l.value) st.stack) c else none
  | .lit rest v =>
    match rest with
    | [] => none
    | r :: rs =>
      if c = r then
        (if rs.isEmpty then some (complete v st.stack) else some ⟨st.stack, .lit rs v⟩)
      else none

/-- Feed the whole input. -/
def run (st : PState) : List Char → Option PState
  | [] => some st
  | c :: cs =>
    match step st c with
    | none => none
    | some st' => run st' cs

/-- End of input: a complete top-level value must have been read. -/
def finish (st : PState) : Option Json :=
  match st.mode, st.stack with
  | .done v, [] => some v
  | .num ns l, [] => if numFinal ns then some (.num l.value) else none
  | _, _ => none

/-- `JSON.parse(text)`: `none` stands for the thrown `SyntaxError`. -/
def JSON_parse (text : List Char) : Option Json :=
  match run ⟨[], .value⟩ text with
  | none => none
  | some st => finish st

/-- The pending characters of a literal are not white space (an invariant
of the parser, used in the proofs). -/
def Mode.litClean : Mode → Bool
  | .lit rest _ => rest.all fun x => !isJsWhiteSpace x
  | _ => true

/-! ## The prompt of lines 59-73 -/

/-- The template literal of line 59 up to the opening brace of the schema. -/
def promptIntro : List Char :=
  "You are an AI assistant that extracts structured invoice data from the provided text. Analyse the provided text and only return JSON in this format:\n    ".toList

/-- The JSON schema template of lines 60-72, brace to brace. -/
def schemaTemplate : List Char :=
  "\x7b\n      \"invoice_number\": \"\",\n      \"supplier\": \"\",\n      \"invoice_date\": \"\",\n      \"due_date\": \"\",\n      \"total_amount\": 0,\n      \"currency\": \"\",\n      \"description\": \"\",\n      \"po\": \"\",\n      \"IGST\": \"\",\n      \"CGST\": \"\",\n      \"SGST\": \"\"\n    \x7d".toList

/-- The label of line 73 that precedes the interpolated `rawText`. -/
def promptTextLabel : List Char := "\n    Text: ".toList

/-- Lines 59-73: the template literal with `rawText` interpolated at its end. -/
def prompt (rawText : List Char) : List Char :=
  promptIntro ++ schemaTemplate ++ promptTextLabel ++ rawText

/-! ## Errors, the outside world, effects -/

/-- An error object: its `message`, and `error.response?.data?.message`
when the error carries an HTTP response with such a field. -/
structure JsError where
  message : List Char
  responseMessage : Option (List Char)

/-- A thrown value or rejection reason: `undefined` or `null` (`nullish`),
on which a property access throws, or an error object. -/
inductive Thrown where
  | nullish : Thrown
  | error (e : JsError) : Thrown

/-- The `SyntaxError` thrown by `JSON.parse`; it has no `response`. -/
def syntaxError : JsError := ⟨"Unexpected token in JSON".toList, none⟩

/-- The `TypeError` of reading `error.response` on line 108 when `error` is
`undefined` or `null`; it has no `response`. -/
def typeError : JsError :=
  ⟨"Cannot read properties of undefined".toList, none⟩

/-- The uploaded file, `data.file[0]`; only its `type` is read. -/
structure File where
  type : List Char

/-- Outcomes of the calls that leave the component, for one run.  `.error t`
stands for a rejected promise or a thrown exception.  `completion` yields
`response.data.choices[0].message.content`; a response without that field
makes line 83 throw, which is an `.error` here.  `urlSearchParams` yields
the string `new URLSearchParams(jsonResponse).toString()` of line 93.
`sheetsPost` takes that string as the request body and yields
`sheetsResponse.status`. -/
structure World where
  arrayBuffer : Except Thrown Unit
  getDocument : Except Thrown Unit
  getPage : Except Thrown Unit
  render : Except Thrown Unit
  recognize : Except Thrown (List Char)
  completion : List Char → Except Thrown (List Char)
  urlSearchParams : Json → Except Thrown (List Char)
  sheetsPost : List Char → Except Thrown Nat

/-- The calls whose outcome decides how a run goes on, with the argument
the code computed for them. -/
inductive Call where
  | arrayBuffer : Call
  | getDocument : Call
  | getPage : Call
  | render : Call
  | recognize : Call
  | completionPost (prompt : List Char) : Call
  | jsonParse (text : List Char) : Call
  | urlSearchParams (record : Json) : Call
  | sheetsPost (body : List Char) : Call

/-- What `toast.error` is given: a string, or the caught value. -/
inductive Shown where
  | text (s : List Char) : Shown
  | errorObject (e : Thrown) : Shown

/-- Observable steps of a run, in program order.  A `call` records what it
threw, if anything. -/
inductive Effect where
  | setLoading (b : Bool) : Effect
  | call (c : Call) (threw : Option Thrown) : Effect
  | throwNew (e : JsError) : Effect
  | toastSuccess (msg : List Char) : Effect
  | toastError (shown : Shown) : Effect
  | alert (msg : List Char) : Effect
  | reset : Effect

/-- An `async` computation run to completion: the effects it performed and
its result (`.error t`: it threw `t`). -/
structure Js (α : Type) where
  trace : List Effect
  result : Except Thrown α

def Js.pure {α : Type} (a : α) : Js α := ⟨[], .ok a⟩

def Js.bind {α β : Type} (x : Js α) (f : α → Js β) : Js β :=
  match x.result with
  | .error e => ⟨x.trace, .error e⟩
  | .ok a => ⟨x.trace ++ (f a).trace, (f a).result⟩

instance : Monad Js where
  pure := Js.pure
  bind := Js.bind

/-- Perform an outside call and record it. -/
def call {α : Type} (c : Call) (outcome : Except Thrown α) : Js α :=
  ⟨[.call c (match outcome with | .error e => some e | .ok _ => none)], outcome⟩

def emit (e : Effect) : Js Unit := ⟨[e], .ok ()⟩

/-- `throw new Error(...)`. -/
def throwNew {α : Type} (e : JsError) : Js α := ⟨[.throwNew e], .error (.error e)⟩

/-- An exception raised by the evaluation of an expression. -/
def raise {α : Type} (e : JsError) : Js α := ⟨[], .error (.error e)⟩

/-- `try { body } catch (error) { handler(error) }`. -/
def tryCatch {α : Type} (body : Js α) (handler : Thrown → Js α) : Js α :=
  match body.result with
  | .ok _ => body
  | .error e => ⟨body.trace ++ (handler e).trace, (handler e).result⟩

/-- `try { body } finally { fin }`. -/
def tryFinally {α : Type} (body : Js α) (fin : Js Unit) : Js α :=
  ⟨body.trace ++ fin.trace,
    match fin.result with
    | .error e => .error e
    | .ok _ => body.result⟩

/-- `a || b` for an optional string `a` and a string `b`: `a` when it is
present and non-empty (truthy), else `b`. -/
def orString (a : Option (List Char)) (b : List Char) : List Char :=
  match a with
  | some s => if s.isEmpty then b else s
  | none => b

/-- `a || b` for a string `a` and a caught value `b`. -/
def orError (a : List Char) (b : Thrown) : Shown :=
  if a.isEmpty then .errorObject b else .text a

/-! ## The three functions of `App.jsx` -/

def successMessage : List Char := "Google Sheets Submission Successful".toList

def fallbackMessage : List Char := "OCR or API error".toList

def processingMessage : List Char := "File processing error".toList

def unsupportedMessage : List Char := "Only PDF or image files are supported.".toList

/-- The error of line 105. -/
def submitError : JsError := ⟨"Failed to submit to Google Sheets".toList, none⟩

/-- Lines 55-106, the `try` block of `extractTextFromImage`. -/
def extractTextFromImageBody (w : World) : Js Unit := do
  let text ← call .recognize w.recognize
  let rawText := trim text
  let content ← call (.completionPost (prompt rawText)) (w.completion (prompt rawText))
  let jsonResponse ← call (.jsonParse (structuredData content))
    (match JSON_parse (structuredData content) with
      | some v => .ok v
      | none => .error (.error syntaxError))
  let body ← call (.urlSearchParams jsonResponse) (w.urlSearchParams jsonResponse)
  let status ← call (.sheetsPost body) (w.sheetsPost body)
  if status = 200 then do
    emit (.toastSuccess successMessage)
    emit .reset
  else
    throwNew submitError

/-- Line 108, the `catch` block of `extractTextFromImage`:
`toast.error(error.response?.data?.message || 'OCR or API error')`.  The
access `error.response` is unguarded, so it throws when `error` is
`undefined` or `null`. -/
def extractTextFromImageCatch (error : Thrown) : Js Unit :=
  match error with
  | .nullish => raise typeError
  | .error e => emit (.toastError (.text (orString e.responseMessage fallbackMessage)))

/-- Lines 53-110. -/
def extractTextFromImage (w : World) : Js Unit :=
  tryCatch (extractTextFromImageBody w) extractTextFromImageCatch

/-- Lines 36-51.  The synchronous canvas calls between the awaited ones
(`getViewport`, `createElement`, `getContext`, `toDataURL`) are not recorded. -/
def processPDF (w : World) : Js Unit := do
  call .arrayBuffer w.arrayBuffer
  call .getDocument w.getDocument
  call .getPage w.getPage
  call .render w.render
  extractTextFromImage w

def pdfType : List Char := "application/pdf".toList

def imagePrefix : List Char := "image/".toList

/-- Lines 13-34; `file` is `data.file[0]`, `none` when it is `undefined`.
The synchronous `URL.createObjectURL` of line 24 is not recorded. -/
def handleFileUpload (w : World) (file : Option File) : Js Unit :=
  match file with
  | none => Js.pure ()
  | some f => do
    emit (.setLoading true)
    tryFinally
      (tryCatch
        (if f.type = pdfType then processPDF w
          else if startsWith f.type imagePrefix then extractTextFromImage w
          else emit (.alert unsupportedMessage))
        (fun error => emit (.toastError (orError processingMessage error))))
      (emit (.setLoading false))

/-! ## Observations on a run -/

@[simp]
def Effect.isCall : Effect → Bool
  | .call _ _ => true
  | _ => false

@[simp]
def Effect.isSetLoading : Effect → Bool
  | .setLoading _ => true
  | _ => false

@[simp]
def Effect.isSheetsPost : Effect → Bool
  | .call (.sheetsPost _) _ => true
  | _ => false

@[simp]
def Effect.isToastSuccess : Effect → Bool
  | .toastSuccess _ => true
  | _ => false

@[simp]
def Effect.isToastError : Effect → Bool
  | .toastError _ => true
  | _ => false

@[simp]
def Effect.isAlert : Effect → Bool
  | .alert _ => true
  | _ => false

/-- The effects a user sees: both kinds of toast and the alert dialog. -/
@[simp]
def Effect.isNotification (e : Effect) : Bool :=
  e.isToastSuccess || e.isToastError || e.isAlert

@[simp]
def notifications (tr : List Effect) : List Effect := tr.filter Effect.isNotification

/-- The pipeline stages, one per recorded call. -/
inductive Stage where
  | arrayBuffer | getDocument | getPage | render
  | recognize | completionPost | jsonParse | urlSearchParams | sheetsPost
  deriving DecidableEq

@[simp]
def Call.stage : Call → Stage
  | .arrayBuffer => .arrayBuffer
  | .getDocument => .getDocument
  | .getPage => .getPage
  | .render => .render
  | .recognize => .recognize
  | .completionPost _ => .completionPost
  | .jsonParse _ => .jsonParse
  | .urlSearchParams _ => .urlSearchParams
  | .sheetsPost _ => .sheetsPost

@[simp]
def Effect.stage? : Effect → Option Stage
  | .call c _ => some c.stage
  | _ => none

/-- The stages a run invoked, in order. -/
@[simp]
def stages (tr : List Effect) : List Stage := tr.filterMap Effect.stage?

/-- The full stage sequence for a file: rasterization (four awaited pdf.js
calls) only for a PDF, then OCR, completion request, JSON parsing, form
encoding, storage POST; nothing for an unsupported type. -/
def pipeline (f : File) : List Stage :=
  if f.type = pdfType then
    [.arrayBuffer, .getDocument, .getPage, .render,
      .recognize, .completionPost, .jsonParse, .urlSearchParams, .sheetsPost]
  else if startsWith f.type imagePrefix then
    [.recognize, .completionPost, .jsonParse, .urlSearchParams, .sheetsPost]
  else []

/-- No call is made after a call that threw. -/
@[simp]
def abortsOnFailure : List Effect → Bool
  | [] => true
  | .call _ (some _) :: rest => rest.all (fun e => !e.isCall)
  | _ :: rest => abortsOnFailure rest

/-- Every call of the run returned. -/
@[simp]
def allCallsReturned (tr : List Effect) : Bool :=
  tr.all (fun e => match e with
    | .call _ (some _) => false
    | _ => true)

/-- What ended the pipeline: the value a call threw, or the error line 105
threw. -/
@[simp]
def raised : List Effect → Option Thrown
  | [] => none
  | .call _ (some t) :: _ => some t
  | .throwNew e :: _ => some (.error e)
  | _ :: rest => raised rest

/-- The most specific message an error carries, in the spec's words: the
message of the upstream response when there is a non-empty one, else the
error's own message when it is non-empty. -/
def availableMessage (e : JsError) : Option (List Char) :=
  match e.responseMessage with
  | some m => if m.isEmpty then (if e.message.isEmpty then none else some e.message) else some m
  | none => if e.message.isEmpty then none else some e.message

/-- What a call outcome threw, if anything. -/
def thrownBy {α : Type} (outcome : Except Thrown α) : Option Thrown :=
  match outcome with
  | .error t => some t
  | .ok _ => none

/-- The RawText of a run in world `w`: the trimmed OCR text, when OCR
succeeds. -/
def rawTextOf (w : World) : Option (List Char) :=
  match w.recognize with
  | .ok text => some (trim text)
  | .error _ => none

/-- The completion reply to the prompt built from the RawText, when OCR and
the completion request succeed. -/
def replyOf (w : World) : Option (List Char) :=
  match rawTextOf w with
  | some rawText =>
    (match w.completion (prompt rawText) with
      | .ok content => some content
      | .error _ => none)
  | none => none

/-- The record: what `JSON.parse` returns for the fence-stripped reply, when
there is a reply and it parses. -/
def recordOf (w : World) : Option Json :=
  match replyOf w with
  | some content => JSON_parse (structuredData content)
  | none => none

/-- The form-encoded request body, when there is a record and
`URLSearchParams` accepts it. -/
def bodyOf (w : World) : Option (List Char) :=
  match recordOf w with
  | some v =>
    (match w.urlSearchParams v with
      | .ok body => some body
      | .error _ => none)
  | none => none

/-- Whether a stage succeeds in world `w`, given that the stages before it
did. -/
def stageSucceeds (w : World) : Stage → Bool
  | .arrayBuffer => (thrownBy w.arrayBuffer).isNone
  | .getDocument => (thrownBy w.getDocument).isNone
  | .getPage => (thrownBy w.getPage).isNone
  | .render => (thrownBy w.render).isNone
  | .recognize => (rawTextOf w).isSome
  | .completionPost => (replyOf w).isSome
  | .jsonParse => (recordOf w).isSome
  | .urlSearchParams => (bodyOf w).isSome
  | .sheetsPost =>
    match bodyOf w with
    | some body => (thrownBy (w.sheetsPost body)).isNone
    | none => false

/-- The stages of a sequence up to and including the first that fails. -/
def untilFailure (ok : Stage → Bool) : List Stage → List Stage
  | [] => []
  | s :: rest => if ok s then s :: untilFailure ok rest else [s]

/-- What world `w` answers to a call: the value it throws, if any. -/
def Call.outcome (w : World) : Call → Option Thrown
  | .arrayBuffer => thrownBy w.arrayBuffer
  | .getDocument => thrownBy w.getDocument
  | .getPage => thrownBy w.getPage
  | .render => thrownBy w.render
  | .recognize => thrownBy w.recognize
  | .completionPost p => thrownBy (w.completion p)
  | .jsonParse text => if (JSON_parse text).isSome then none else some (.error syntaxError)
  | .urlSearchParams v => thrownBy (w.urlSearchParams v)
  | .sheetsPost body => thrownBy (w.sheetsPost body)

/-- The argument of a call is what the earlier stages produced in world
`w`: the prompt for the RawText, the fence-stripped reply, the record, the
encoded body. -/
def Call.fed (w : World) : Call → Prop
  | .completionPost p => (rawTextOf w).map prompt = some p
  | .jsonParse text => (replyOf w).map structuredData = some text
  | .urlSearchParams v => recordOf w = some v
  | .sheetsPost body => bodyOf w = some body
  | _ => True

/-- The value of the `loading` state after a list of effects. -/
def loadingAfter (init : Bool) (tr : List Effect) : Bool :=
  tr.foldl (fun b e => match e with
    | .setLoading v => v
    | _ => b) init

/-- Consecutive runs of the handler, each to completion. -/
def session : List (World × Option File) → List Effect
  | [] => []
  | r :: rest => (handleFileUpload r.1 r.2).trace ++ session rest

/-- The eleven property names of the schema, in the order of lines 61-71. -/
def schemaKeys : List (List Char) :=
  ["invoice_number".toList, "supplier".toList, "invoice_date".toList, "due_date".toList,
    "total_amount".toList, "currency".toList, "description".toList, "po".toList,
    "IGST".toList, "CGST".toList, "SGST".toList]

/-- Up to and including the first occurrence of `c`. -/
def takeThrough (c : Char) : List Char → List Char
  | [] => []
  | x :: xs => if x = c then [x] else x :: takeThrough c xs

/-- The object literal embedded in a prompt: from its first opening brace
through the first closing brace after it. -/
def embeddedTemplate (p : List Char) : List Char :=
  takeThrough (Char.ofNat 125) (p.dropWhile (fun c => c != Char.ofNat 123))

/-- A world in which every call succeeds, OCR reads `text`, the completion
replies `reply`, the form encoding is the empty string and the storage
endpoint answers `status`. -/
def happyWorld (text reply : List Char) (status : Nat) : World where
  arrayBuffer := .ok ()
  getDocument := .ok ()
  getPage := .ok ()
  render := .ok ()
  recognize := .ok text
  completion := fun _ => .ok reply
  urlSearchParams := fun _ => .ok []
  sheetsPost := fun _ => .ok status

/-- A world in which OCR throws `e`; every other call would succeed. -/
def failingOcrWorld (e : JsError) : World where
  arrayBuffer := .ok ()
  getDocument := .ok ()
  getPage := .ok ()
  render := .ok ()
  recognize := .error (.error e)
  completion := fun _ => .ok []
  urlSearchParams := fun _ => .ok []
  sheetsPost := fun _ => .ok 200

/-- A world in which the completion request throws `e` after OCR read
`text`; every other call would succeed. -/
def failingCompletionWorld (text : List Char) (e : JsError) : World where
  arrayBuffer := .ok ()
  getDocument := .ok ()
  getPage := .ok ()
  render := .ok ()
  recognize := .ok text
  completion := fun _ => .error (.error e)
  urlSearchParams := fun _ => .ok []
  sheetsPost := fun _ => .ok 200

def pngFile : File := ⟨"image/png".toList⟩

def textFile : File := ⟨"text/plain".toList⟩


/-- A world in which OCR rejects with `undefined`; every other call would
succeed. -/
def nullishOcrWorld : World where
  arrayBuffer := .ok ()
  getDocument := .ok ()
  getPage := .ok ()
  render := .ok ()
  recognize := .error .nullish
  completion := fun _ => .ok []
  urlSearchParams := fun _ => .ok []
  sheetsPost := fun _ => .ok 200

/-- A world like `happyWorld` in which `URLSearchParams` throws `e`. -/
def failingEncodeWorld (text reply : List Char) (e : JsError) : World where
  arrayBuffer := .ok ()
  getDocument := .ok ()
  getPage := .ok ()
  render := .ok ()
  recognize := .ok text
  completion := fun _ => .ok reply
  urlSearchParams := fun _ => .error (.error e)
  sheetsPost := fun _ => .ok 200

/-- The ways `extractTextFromImage` can go, each with its trace and whether
its `catch` block threw in turn. -/
inductive ExtractRun (w : World) : List Effect → Bool → Prop where
  | ocrNullish (h1 : w.recognize = .error .nullish) :
    ExtractRun w [.call .recognize (some .nullish)] true
  | ocrFailed (e : JsError) (h1 : w.recognize = .error (.error e)) :
    ExtractRun w [.call .recognize (some (.error e)),
      .toastError (.text (orString e.responseMessage fallbackMessage))] false
  | completionNullish (text : List Char) (h1 : w.recognize = .ok text)
    (h2 : w.completion (prompt (trim text)) = .error .nullish) :
    ExtractRun w [.call .recognize none,
      .call (.completionPost (prompt (trim text))) (some .nullish)] true
  | completionFailed (text : List Char) (e : JsError) (h1 : w.recognize = .ok text)
    (h2 : w.completion (prompt (trim text)) = .error (.error e)) :
    ExtractRun w [.call .recognize none,
      .call (.completionPost (prompt (trim text))) (some (.error e)),
      .toastError (.text (orString e.responseMessage fallbackMessage))] false
  | parseFailed (text content : List Char) (h1 : w.recognize = .ok text)
    (h2 : w.completion (prompt (trim text)) = .ok content)
    (h3 : JSON_parse (structuredData content) = none) :
    ExtractRun w [.call .recognize none, .call (.completionPost (prompt (trim text))) none,
      .call (.jsonParse (structuredData content)) (some (.error syntaxError)),
      .toastError (.text fallbackMessage)] false
  | encodeNullish (text content : List Char) (v : Json)
    (h1 : w.recognize = .ok text)
    (h2 : w.completion (prompt (trim text)) = .ok content)
    (h3 : JSON_parse (structuredData content) = some v)
    (h4 : w.urlSearchParams v = .error .nullish) :
    ExtractRun w [.call .recognize none, .call (.completionPost (prompt (trim text))) none,
      .call (.jsonParse (structuredData content)) none,
      .call (.urlSearchParams v) (some .nullish)] true
  | encodeFailed (text content : List Char) (v : Json) (e : JsError)
    (h1 : w.recognize = .ok text)
    (h2 : w.completion (prompt (trim text)) = .ok content)
    (h3 : JSON_parse (structuredData content) = some v)
    (h4 : w.urlSearchParams v = .error (.error e)) :
    ExtractRun w [.call .recognize none, .call (.completionPost (prompt (trim text))) none,
      .call (.jsonParse (structuredData content)) none,
      .call (.urlSearchParams v) (some (.error e)),
      .toastError (.text (orString e.responseMessage fallbackMessage))] false
  | postNullish (text content : List Char) (v : Json) (body : List Char)
    (h1 : w.recognize = .ok text)
    (h2 : w.completion (prompt (trim text)) = .ok content)
    (h3 : JSON_parse (structuredData content) = some v)
    (h4 : w.urlSearchParams v = .ok body)
    (h5 : w.sheetsPost body = .error .nullish) :
    ExtractRun w [.call .recognize none, .call (.completionPost (prompt (trim text))) none,
      .call (.jsonParse (structuredData content)) none,
      .call (.urlSearchParams v) none, .call (.sheetsPost body) (some .nullish)] true
  | postFailed (text content : List Char) (v : Json) (body : List Char) (e : JsError)
    (h1 : w.recognize = .ok text)
    (h2 : w.completion (prompt (trim text)) = .ok content)
    (h3 : JSON_parse (structuredData content) = some v)
    (h4 : w.urlSearchParams v = .ok body)
    (h5 : w.sheetsPost body = .error (.error e)) :
    ExtractRun w [.call .recognize none, .call (.completionPost (prompt (trim text))) none,
      .call (.jsonParse (structuredData content)) none,
      .call (.urlSearchParams v) none, .call (.sheetsPost body) (some (.error e)),
      .toastError (.text (orString e.responseMessage fallbackMessage))] false
  | rejected (text content : List Char) (v : Json) (body : List Char) (status : Nat)
    (h1 : w.recognize = .ok text)
    (h2 : w.completion (prompt (trim text)) = .ok content)
    (h3 : JSON_parse (structuredData content) = some v)
    (h4 : w.urlSearchParams v = .ok body)
    (h5 : w.sheetsPost body = .ok status) (h6 : status ≠ 200) :
    ExtractRun w [.call .recognize none, .call (.completionPost (prompt (trim text))) none,
      .call (.jsonParse (structuredData content)) none,
      .call (.urlSearchParams v) none, .call (.sheetsPost body) none,
      .throwNew submitError, .toastError (.text fallbackMessage)] false
  | stored (text content : List Char) (v : Json) (body : List Char)
    (h1 : w.recognize = .ok text)
    (h2 : w.completion (prompt (trim text)) = .ok content)
    (h3 : JSON_parse (structuredData content) = some v)
    (h4 : w.urlSearchParams v = .ok body)
    (h5 : w.sheetsPost body = .ok 200) :
    ExtractRun w [.call .recognize none, .call (.completionPost (prompt (trim text))) none,
      .call (.jsonParse (structuredData content)) none,
      .call (.urlSearchParams v) none, .call (.sheetsPost body) none,
      .toastSuccess successMessage, .reset] false

/-- The ways `handleFileUpload` can go for a file that is present. -/
inductive HandleRun (w : World) (f : File) : List Effect → Prop where
  | unsupported (hp : f.type ≠ pdfType) (hi : startsWith f.type imagePrefix = false) :
    HandleRun w f [.setLoading true, .alert unsupportedMessage, .setLoading false]
  | image (hp : f.type ≠ pdfType) (hi : startsWith f.type imagePrefix = true)
    (tr : List Effect) (hx : ExtractRun w tr false) :
    HandleRun w f (.setLoading true :: tr ++ [.setLoading false])
  | imageThrew (hp : f.type ≠ pdfType) (hi : startsWith f.type imagePrefix = true)
    (tr : List Effect) (hx : ExtractRun w tr true) :
    HandleRun w f (.setLoading true :: tr
      ++ [.toastError (.text processingMessage), .setLoading false])
  | arrayBufferFailed (hp : f.type = pdfType) (t : Thrown) (h1 : w.arrayBuffer = .error t) :
    HandleRun w f [.setLoading true, .call .arrayBuffer (some t),
      .toastError (.text processingMessage), .setLoading false]
  | getDocumentFailed (hp : f.type = pdfType) (t : Thrown) (h1 : w.arrayBuffer = .ok ())
    (h2 : w.getDocument = .error t) :
    HandleRun w f [.setLoading true, .call .arrayBuffer none, .call .getDocument (some t),
      .toastError (.text processingMessage), .setLoading false]
  | getPageFailed (hp : f.type = pdfType) (t : Thrown) (h1 : w.arrayBuffer = .ok ())
    (h2 : w.getDocument = .ok ()) (h3 : w.getPage = .error t) :
    HandleRun w f [.setLoading true, .call .arrayBuffer none, .call .getDocument none,
      .call .getPage (some t), .toastError (.text processingMessage), .setLoading false]
  | renderFailed (hp : f.type = pdfType) (t : Thrown) (h1 : w.arrayBuffer = .ok ())
    (h2 : w.getDocument = .ok ()) (h3 : w.getPage = .ok ()) (h4 : w.render = .error t) :
    HandleRun w f [.setLoading true, .call .arrayBuffer none, .call .getDocument none,
      .call .getPage none, .call .render (some t),
      .toastError (.text processingMessage), .setLoading false]
  | pdf (hp : f.type = pdfType) (h1 : w.arrayBuffer = .ok ())
    (h2 : w.getDocument = .ok ()) (h3 : w.getPage = .ok ()) (h4 : w.render = .ok ())
    (tr : List Effect) (hx : ExtractRun w tr false) :
    HandleRun w f (.setLoading true :: .call .arrayBuffer none :: .call .getDocument none ::
      .call .getPage none :: .call .render none :: tr ++ [.setLoading false])
  | pdfThrew (hp : f.type = pdfType) (h1 : w.arrayBuffer = .ok ())
    (h2 : w.getDocument = .ok ()) (h3 : w.getPage = .ok ()) (h4 : w.render = .ok ())
    (tr : List Effect) (hx : ExtractRun w tr true) :
    HandleRun w f (.setLoading true :: .call .arrayBuffer none :: .call .getDocument none ::
      .call .getPage none :: .call .render none :: tr
      ++ [.toastError (.text processingMessage), .setLoading false])

/-- A recorded call has the outcome the world gives it and, as argument,
what the stages before it produced; other effects are not constrained. -/
def Effect.truthful (w : World) : Effect → Prop
  | .call c r => r = c.outcome w ∧ c.fed w
  | _ => True

/-! ## Lemmas on the text primitives -/

theorem rdropWhile_append_of_all (p : Char → Bool) (l ws : List Char)
    (h : ∀ c ∈ ws, p c = true) : (l ++ ws).rdropWhile p = l.rdropWhile p := by
  unfold List.rdropWhile
  rw [List.reverse_append, List.dropWhile_append_of_pos]
  intro a ha
  exact h a (List.mem_reverse.mp ha)

theorem trim_eq_self (s : List Char)
    (hh : ∀ c ∈ s.head?, isJsWhiteSpace c = false)
    (hl : ∀ c ∈ s.getLast?, isJsWhiteSpace c = false) : trim s = s := by
  unfold trim
  have h1 : s.dropWhile isJsWhiteSpace = s := by
    cases s with
    | nil => rfl
    | cons c t =>
      have := hh c (by simp)
      simp [List.dropWhile_cons, this]
  rw [h1, List.rdropWhile_eq_self_iff]
  intro hne
  have := hl (s.getLast hne) (by simp [List.getLast?_eq_getLast _ hne])
  simp [this]

theorem JSON_parse_nil : JSON_parse [] = none := rfl

theorem JSON_parse_backtick (rest : List Char) : JSON_parse (Char.ofNat 96 :: rest) = none := rfl

theorem startsWith_fenceOpen_cons (c : Char) (rest : List Char)
    (h : startsWith (c :: rest) fenceOpen = true) : c = Char.ofNat 96 := by
  simp [startsWith, fenceOpen, List.isPrefixOf] at h
  exact h.1.symm ▸ rfl

theorem trim_fenced (body : List Char) :
    trim (fenceOpen ++ body ++ fenceClose) = fenceOpen ++ body ++ fenceClose := by
  apply trim_eq_self
  · intro c hc
    simp [fenceOpen] at hc
    subst hc; rfl
  · intro c hc
    simp [fenceClose, List.getLast?_append] at hc
    subst hc; rfl

theorem replaceOpenFence_fenced (ws1 tail : List Char) (c : Char)
    (h1 : ∀ d ∈ ws1, isJsWhiteSpace d = true) (hc : isJsWhiteSpace c = false) :
    replaceOpenFence (fenceOpen ++ (ws1 ++ c :: tail)) = c :: tail := by
  unfold replaceOpenFence
  have hp : startsWith (fenceOpen ++ (ws1 ++ c :: tail)) fenceOpen = true := by
    simp [startsWith]
  rw [if_pos hp, List.drop_left, List.dropWhile_append_of_pos h1]
  simp [List.dropWhile_cons, hc]

theorem replaceCloseFence_fenced (s : List Char) :
    replaceCloseFence (s ++ fenceClose) = s := by
  unfold replaceCloseFence
  have hs : fenceClose.isSuffixOf (s ++ fenceClose) = true := by simp
  rw [if_pos hs]
  simp

theorem structuredData_of_json (j : List Char) (v : Json) (hj : JSON_parse j = some v)
    (hlead : ∀ c ∈ j.head?, isJsWhiteSpace c = false)
    (htrail : ∀ c ∈ j.getLast?, isJsWhiteSpace c = false) : structuredData j = j := by
  unfold structuredData
  simp only [trim_eq_self j hlead htrail]
  cases j with
  | nil => rfl
  | cons c t =>
    by_cases hs : startsWith (c :: t) fenceOpen = true
    · have hc := startsWith_fenceOpen_cons c t hs
      subst hc
      rw [JSON_parse_backtick] at hj
      cases hj
    · simp [hs]

theorem fence_strip_of_trimmed (j ws1 ws2 : List Char) (v : Json)
    (hj : JSON_parse j = some v)
    (hlead : ∀ c ∈ j.head?, isJsWhiteSpace c = false)
    (htrail : ∀ c ∈ j.getLast?, isJsWhiteSpace c = false)
    (h1 : ∀ c ∈ ws1, isJsWhiteSpace c = true)
    (h2 : ∀ c ∈ ws2, isJsWhiteSpace c = true) :
    structuredData (fenceOpen ++ ws1 ++ j ++ ws2 ++ fenceClose) = j
    ∧ JSON_parse (structuredData (fenceOpen ++ ws1 ++ j ++ ws2 ++ fenceClose)) = some v
    ∧ structuredData (structuredData (fenceOpen ++ ws1 ++ j ++ ws2 ++ fenceClose))
        = structuredData (fenceOpen ++ ws1 ++ j ++ ws2 ++ fenceClose) := by
  have key : structuredData (fenceOpen ++ ws1 ++ j ++ ws2 ++ fenceClose) = j := by
    cases j with
    | nil => rw [JSON_parse_nil] at hj; cases hj
    | cons c t =>
      have hc : isJsWhiteSpace c = false := hlead c (by simp)
      have e1 : fenceOpen ++ ws1 ++ c :: t ++ ws2 ++ fenceClose
          = fenceOpen ++ (ws1 ++ c :: t ++ ws2) ++ fenceClose := by simp
      have e2 : fenceOpen ++ (ws1 ++ c :: t ++ ws2) ++ fenceClose
          = fenceOpen ++ (ws1 ++ c :: (t ++ ws2 ++ fenceClose)) := by simp
      unfold structuredData
      simp only [e1, trim_fenced]
      have hp : startsWith (fenceOpen ++ (ws1 ++ c :: t ++ ws2) ++ fenceClose) fenceOpen
          = true := by simp [startsWith]
      rw [if_pos hp, e2, replaceOpenFence_fenced ws1 _ c h1 hc]
      have e3 : c :: (t ++ ws2 ++ fenceClose) = (c :: t ++ ws2) ++ fenceClose := by simp
      rw [e3, replaceCloseFence_fenced]
      unfold trim
      have hd : (c :: t ++ ws2).dropWhile isJsWhiteSpace = c :: t ++ ws2 := by
        simp [List.dropWhile_cons, hc]
      rw [hd, rdropWhile_append_of_all _ _ _ h2, List.rdropWhile_eq_self_iff]
      intro hne
      have := htrail ((c :: t).getLast hne) (by simp [List.getLast?_eq_getLast _ hne])
      simp [this]
  refine ⟨key, ?_, ?_⟩
  · rw [key, hj]
  · rw [key, structuredData_of_json j v hj hlead htrail]

/-! ## A valid JSON text ends in no ECMAScript white space other than JSON white space -/

theorem ne_of_whiteSpace (c d : Char) (hc : isJsWhiteSpace c = true)
    (hd : isJsWhiteSpace d = false) : c ≠ d := by
  rintro rfl
  rw [hc] at hd
  cases hd

theorem isDigit_of_whiteSpace (c : Char) (hc : isJsWhiteSpace c = true) : isDigit c = false := by
  simp only [isJsWhiteSpace, Bool.or_eq_true, Bool.and_eq_true, decide_eq_true_eq] at hc
  simp only [isDigit, Bool.and_eq_false_iff, decide_eq_false_iff_not]
  omega

theorem isDigit19_of_whiteSpace (c : Char) (hc : isJsWhiteSpace c = true) :
    isDigit19 c = false := by
  simp only [isJsWhiteSpace, Bool.or_eq_true, Bool.and_eq_true, decide_eq_true_eq] at hc
  simp only [isDigit19, Bool.and_eq_false_iff, decide_eq_false_iff_not]
  omega

theorem hexVal_of_whiteSpace (c : Char) (hc : isJsWhiteSpace c = true) : hexVal c = none := by
  have hd := isDigit_of_whiteSpace c hc
  simp only [isJsWhiteSpace, Bool.or_eq_true, Bool.and_eq_true, decide_eq_true_eq] at hc
  have h1 : (decide (0x41 ≤ c.toNat) && decide (c.toNat ≤ 0x46)) = false := by
    simp only [Bool.and_eq_false_iff, decide_eq_false_iff_not]; omega
  have h2 : (decide (0x61 ≤ c.toNat) && decide (c.toNat ≤ 0x66)) = false := by
    simp only [Bool.and_eq_false_iff, decide_eq_false_iff_not]; omega
  simp [hexVal, hd, h1, h2]

theorem startValue_of_whiteSpace (stack : List Frame) (c : Char)
    (hc : isJsWhiteSpace c = true) : startValue stack c = none := by
  have n1 := ne_of_whiteSpace c '{' hc (by decide)
  have n2 := ne_of_whiteSpace c '[' hc (by decide)
  have n3 := ne_of_whiteSpace c '"' hc (by decide)
  have n4 := ne_of_whiteSpace c '-' hc (by decide)
  have n5 := ne_of_whiteSpace c '0' hc (by decide)
  have n6 := ne_of_whiteSpace c 't' hc (by decide)
  have n7 := ne_of_whiteSpace c 'f' hc (by decide)
  have n8 := ne_of_whiteSpace c 'n' hc (by decide)
  simp [startValue, n1, n2, n3, n4, n5, n6, n7, n8, isDigit19_of_whiteSpace c hc]

theorem stepDelim_of_whiteSpace (st : PState) (c : Char)
    (hc : isJsWhiteSpace c = true) (hj : isJsonWs c = false) : stepDelim st c = none := by
  have n1 := ne_of_whiteSpace c ',' hc (by decide)
  have n2 := ne_of_whiteSpace c ']' hc (by decide)
  have n3 := ne_of_whiteSpace c '}' hc (by decide)
  unfold stepDelim
  simp only [hj, Bool.false_eq_true, if_false]
  split <;> simp [n1, n2, n3]

theorem numStep_of_whiteSpace (ns : NumState) (c : Char)
    (hc : isJsWhiteSpace c = true) : numStep ns c = none := by
  have n1 := ne_of_whiteSpace c '0' hc (by decide)
  have n2 := ne_of_whiteSpace c '.' hc (by decide)
  have n3 := ne_of_whiteSpace c 'e' hc (by decide)
  have n4 := ne_of_whiteSpace c 'E' hc (by decide)
  have n5 := ne_of_whiteSpace c '+' hc (by decide)
  have n6 := ne_of_whiteSpace c '-' hc (by decide)
  cases ns <;>
    simp [numStep, n1, n2, n3, n4, n5, n6, isDigit_of_whiteSpace c hc,
      isDigit19_of_whiteSpace c hc]

theorem escapeChar_of_whiteSpace (c : Char) (hc : isJsWhiteSpace c = true) :
    escapeChar c = none := by
  have n1 := ne_of_whiteSpace c '"' hc (by decide)
  have n2 := ne_of_whiteSpace c '\\' hc (by decide)
  have n3 := ne_of_whiteSpace c '/' hc (by decide)
  have n4 := ne_of_whiteSpace c 'b' hc (by decide)
  have n5 := ne_of_whiteSpace c 'f' hc (by decide)
  have n6 := ne_of_whiteSpace c 'n' hc (by decide)
  have n7 := ne_of_whiteSpace c 'r' hc (by decide)
  have n8 := ne_of_whiteSpace c 't' hc (by decide)
  simp [escapeChar, n1, n2, n3, n4, n5, n6, n7, n8]

theorem finish_step_of_whiteSpace (st st' : PState) (c : Char)
    (hc : isJsWhiteSpace c = true) (hj : isJsonWs c = false) (hl : st.mode.litClean = true)
    (hs : step st c = some st') : finish st' = none := by
  have n1 := ne_of_whiteSpace c ']' hc (by decide)
  have n2 := ne_of_whiteSpace c '}' hc (by decide)
  have n3 := ne_of_whiteSpace c '"' hc (by decide)
  have n4 := ne_of_whiteSpace c ':' hc (by decide)
  have n5 := ne_of_whiteSpace c '\\' hc (by decide)
  have n6 := ne_of_whiteSpace c 'u' hc (by decide)
  obtain ⟨stack, mode⟩ := st
  cases mode with
  | value => simp [step, hj, startValue_of_whiteSpace _ c hc] at hs
  | arrStart => simp [step, hj, n1, startValue_of_whiteSpace _ c hc] at hs
  | objStart => simp [step, hj, n2, n3] at hs
  | key => simp [step, hj, n3] at hs
  | colon => simp [step, hj, n4] at hs
  | afterValue => simp [step, stepDelim_of_whiteSpace _ c hc hj] at hs
  | done v => simp [step, hj] at hs
  | str isKey acc =>
    simp only [step, n3, n5, if_false] at hs
    split at hs
    · cases hs
    · cases hs
      rfl
  | esc isKey acc => simp [step, n6, escapeChar_of_whiteSpace c hc] at hs
  | uni isKey acc hex => simp [step, hexVal_of_whiteSpace c hc] at hs
  | num ns lexeme =>
    simp only [step, numStep_of_whiteSpace ns c hc, stepDelim_of_whiteSpace _ c hc hj] at hs
    split at hs <;> cases hs
  | lit rest v =>
    cases rest with
    | nil => simp [step] at hs
    | cons r rs =>
      simp only [Mode.litClean, List.all_cons, Bool.and_eq_true, Bool.not_eq_true'] at hl
      have hne := ne_of_whiteSpace c r hc hl.1
      simp [step, hne] at hs

theorem complete_litClean (v : Json) (stack : List Frame) :
    (complete v stack).mode.litClean = true := by
  unfold complete
  split <;> rfl

theorem startValue_litClean (stack : List Frame) (c : Char) (s : PState)
    (h : startValue stack c = some s) : s.mode.litClean = true := by
  unfold startValue at h
  split_ifs at h <;> (cases h; rfl)

theorem stepDelim_litClean (st s : PState) (c : Char) (hl : st.mode.litClean = true)
    (h : stepDelim st c = some s) : s.mode.litClean = true := by
  unfold stepDelim at h
  by_cases hw : isJsonWs c = true
  · rw [if_pos hw] at h
    cases h
    exact hl
  · rw [if_neg hw] at h
    (repeat' split at h) <;> first
      | (cases h; done)
      | (cases h; rfl)
      | (cases h; exact complete_litClean _ _)

theorem step_litClean (st s : PState) (c : Char) (hl : st.mode.litClean = true)
    (h : step st c = some s) : s.mode.litClean = true := by
  obtain ⟨stack, mode⟩ := st
  cases mode with
  | afterValue => exact stepDelim_litClean _ _ _ hl h
  | num ns lexeme =>
    simp only [step] at h
    split at h
    · cases h; rfl
    · split at h
      · exact stepDelim_litClean _ _ _ (complete_litClean _ _) h
      · cases h
  | lit rest v =>
    cases rest with
    | nil => simp [step] at h
    | cons r rs =>
      simp only [step] at h
      simp only [Mode.litClean, List.all_cons, Bool.and_eq_true] at hl
      (repeat' split at h) <;> first
        | (cases h; done)
        | (cases h; exact complete_litClean _ _)
        | (cases h; exact hl.2)
  | _ =>
    simp only [step, closeString] at h
    (repeat' split at h) <;> first
      | (cases h; done)
      | (cases h; rfl)
      | (cases h; exact complete_litClean _ _)
      | exact startValue_litClean _ _ _ h

theorem run_litClean (cs : List Char) (st s : PState) (hl : st.mode.litClean = true)
    (h : run st cs = some s) : s.mode.litClean = true := by
  induction cs generalizing st with
  | nil => simp only [run] at h; cases h; exact hl
  | cons c t ih =>
    simp only [run] at h
    split at h
    · cases h
    · next st' hst => exact ih st' (step_litClean _ _ _ hl hst) h

theorem run_append_singleton (cs : List Char) (c : Char) (st : PState) :
    run st (cs ++ [c]) = (run st cs).bind fun s => step s c := by
  induction cs generalizing st with
  | nil =>
    simp only [List.nil_append, run, Option.some_bind]
    cases step st c <;> rfl
  | cons x t ih =>
    simp only [List.cons_append, run]
    cases step st x with
    | none => rfl
    | some st' => exact ih st'

theorem JSON_parse_last (j : List Char) (v : Json) (c : Char)
    (hj : JSON_parse j = some v) (hlast : j.getLast? = some c) (hws : isJsonWs c = false) :
    isJsWhiteSpace c = false := by
  by_contra hc
  have hc' : isJsWhiteSpace c = true := by simpa using hc
  obtain ⟨cs, rfl⟩ : ∃ cs, j = cs ++ [c] := by
    rcases List.eq_nil_or_concat j with h | ⟨cs, d, h⟩
    · subst h; simp at hlast
    · subst h
      simp at hlast
      subst hlast
      exact ⟨cs, List.concat_eq_append _ _⟩
  unfold JSON_parse at hj
  rw [run_append_singleton] at hj
  cases hr : run ⟨[], .value⟩ cs with
  | none => simp [hr] at hj
  | some s =>
    have hl := run_litClean cs ⟨[], .value⟩ s rfl hr
    simp only [hr, Option.some_bind] at hj
    cases hst : step s c with
    | none => simp [hst] at hj
    | some st' =>
      simp only [hst] at hj
      rw [finish_step_of_whiteSpace s st' c hc' hws hl hst] at hj
      cases hj

theorem JSON_parse_head (c : Char) (t : List Char) (v : Json)
    (hj : JSON_parse (c :: t) = some v) (hws : isJsonWs c = false) :
    isJsWhiteSpace c = false := by
  by_contra hc
  have hc' : isJsWhiteSpace c = true := by simpa using hc
  simp [JSON_parse, run, step, hws, startValue_of_whiteSpace _ c hc'] at hj

/-- C1: for valid JSON `j` with no white space at either end, wrapped as
opening marker, white space, `j`, white space, closing marker, the stripping
step of lines 83-86 returns exactly `j`; parsing the result is parsing `j`;
stripping a second time changes nothing.  The white space around `j` is any
ECMAScript white space (what `trim` and `\s` accept). -/
theorem fence_strip_lossless_idempotent (j ws1 ws2 : List Char) (v : Json)
    (hj : JSON_parse j = some v)
    (hlead : ∀ c ∈ j.head?, isJsonWs c = false)
    (htrail : ∀ c ∈ j.getLast?, isJsonWs c = false)
    (h1 : ∀ c ∈ ws1, isJsWhiteSpace c = true)
    (h2 : ∀ c ∈ ws2, isJsWhiteSpace c = true) :
    structuredData (fenceOpen ++ ws1 ++ j ++ ws2 ++ fenceClose) = j
    ∧ JSON_parse (structuredData (fenceOpen ++ ws1 ++ j ++ ws2 ++ fenceClose)) = some v
    ∧ structuredData (structuredData (fenceOpen ++ ws1 ++ j ++ ws2 ++ fenceClose))
        = structuredData (fenceOpen ++ ws1 ++ j ++ ws2 ++ fenceClose) := by
  have hlead' : ∀ c ∈ j.head?, isJsWhiteSpace c = false := by
    intro c hc
    cases j with
    | nil => simp at hc
    | cons d t =>
      simp at hc
      subst hc
      exact JSON_parse_head d t v hj (hlead d (by simp))
  have htrail' : ∀ c ∈ j.getLast?, isJsWhiteSpace c = false :=
    fun c hc => JSON_parse_last j v c hj hc (htrail c hc)
  exact fence_strip_of_trimmed j ws1 ws2 v hj hlead' htrail' h1 h2

theorem fence_strip_lossless_idempotent_witness :
    structuredData (fenceOpen ++ ['\n'] ++ "\x7b\x7d".toList ++ ['\n'] ++ fenceClose)
        = "\x7b\x7d".toList
    ∧ JSON_parse (structuredData
        (fenceOpen ++ ['\n'] ++ "\x7b\x7d".toList ++ ['\n'] ++ fenceClose)) = some (.obj [])
    ∧ structuredData (structuredData
        (fenceOpen ++ ['\n'] ++ "\x7b\x7d".toList ++ ['\n'] ++ fenceClose))
        = structuredData (fenceOpen ++ ['\n'] ++ "\x7b\x7d".toList ++ ['\n'] ++ fenceClose) :=
  fence_strip_lossless_idempotent "\x7b\x7d".toList ['\n'] ['\n'] (.obj []) rfl
    (by decide) (by decide) (by decide) (by decide)

/-! ## Every run follows one of the listed paths -/

@[simp] theorem bind_eq {α β : Type} (x : Js α) (f : α → Js β) : x >>= f = Js.bind x f := rfl

@[simp] theorem orString_none (b : List Char) : orString none b = b := rfl

theorem extract_run (w : World) :
    (ExtractRun w (extractTextFromImage w).trace false
      ∧ (extractTextFromImage w).result = .ok ())
    ∨ (ExtractRun w (extractTextFromImage w).trace true
      ∧ (extractTextFromImage w).result = .error (.error typeError)) := by
  unfold extractTextFromImage extractTextFromImageBody
  cases h1 : w.recognize with
  | error t =>
    cases t with
    | nullish =>
      simp [Js.bind, call, tryCatch, h1, emit, extractTextFromImageCatch, raise]
      exact .ocrNullish h1
    | error e =>
      simp [Js.bind, call, tryCatch, h1, emit, extractTextFromImageCatch]
      exact .ocrFailed e h1
  | ok text =>
    cases h2 : w.completion (prompt (trim text)) with
    | error t =>
      cases t with
      | nullish =>
        simp [Js.bind, call, tryCatch, h1, h2, emit, extractTextFromImageCatch, raise]
        exact .completionNullish text h1 h2
      | error e =>
        simp [Js.bind, call, tryCatch, h1, h2, emit, extractTextFromImageCatch]
        exact .completionFailed text e h1 h2
    | ok content =>
      cases h3 : JSON_parse (structuredData content) with
      | none =>
        simp [Js.bind, call, tryCatch, h1, h2, h3, emit, extractTextFromImageCatch, syntaxError]
        exact .parseFailed text content h1 h2 h3
      | some v =>
        cases h4 : w.urlSearchParams v with
        | error t =>
          cases t with
          | nullish =>
            simp [Js.bind, call, tryCatch, h1, h2, h3, h4, emit, extractTextFromImageCatch,
              raise]
            exact .encodeNullish text content v h1 h2 h3 h4
          | error e =>
            simp [Js.bind, call, tryCatch, h1, h2, h3, h4, emit, extractTextFromImageCatch]
            exact .encodeFailed text content v e h1 h2 h3 h4
        | ok body =>
          cases h5 : w.sheetsPost body with
          | error t =>
            cases t with
            | nullish =>
              simp [Js.bind, call, tryCatch, h1, h2, h3, h4, h5, emit,
                extractTextFromImageCatch, raise]
              exact .postNullish text content v body h1 h2 h3 h4 h5
            | error e =>
              simp [Js.bind, call, tryCatch, h1, h2, h3, h4, h5, emit,
                extractTextFromImageCatch]
              exact .postFailed text content v body e h1 h2 h3 h4 h5
          | ok status =>
            by_cases h6 : status = 200
            · subst h6
              simp [Js.bind, call, tryCatch, h1, h2, h3, h4, h5, emit]
              exact .stored text content v body h1 h2 h3 h4 h5
            · simp [Js.bind, call, tryCatch, h1, h2, h3, h4, h5, h6, emit, throwNew,
                submitError, extractTextFromImageCatch]
              exact .rejected text content v body status h1 h2 h3 h4 h5 h6

theorem handle_run (w : World) (f : File) :
    HandleRun w f (handleFileUpload w (some f)).trace := by
  unfold handleFileUpload
  by_cases hp : f.type = pdfType
  · simp only [hp, if_true]
    unfold processPDF
    cases h1 : w.arrayBuffer with
    | error e =>
      simp [Js.bind, call, tryCatch, tryFinally, h1, emit, orError, processingMessage]
      exact .arrayBufferFailed hp e h1
    | ok u1 =>
      cases u1
      cases h2 : w.getDocument with
      | error e =>
        simp [Js.bind, call, tryCatch, tryFinally, h1, h2, emit, orError, processingMessage]
        exact .getDocumentFailed hp e h1 h2
      | ok u2 =>
        cases u2
        cases h3 : w.getPage with
        | error e =>
          simp [Js.bind, call, tryCatch, tryFinally, h1, h2, h3, emit, orError, processingMessage]
          exact .getPageFailed hp e h1 h2 h3
        | ok u3 =>
          cases u3
          cases h4 : w.render with
          | error e =>
            simp [Js.bind, call, tryCatch, tryFinally, h1, h2, h3, h4, emit, orError,
              processingMessage]
            exact .renderFailed hp e h1 h2 h3 h4
          | ok u4 =>
            cases u4
            rcases extract_run w with ⟨hx, hr⟩ | ⟨hx, hr⟩
            · simp [Js.bind, call, tryCatch, tryFinally, h1, h2, h3, h4, emit, hr]
              exact .pdf hp h1 h2 h3 h4 _ hx
            · simp [Js.bind, call, tryCatch, tryFinally, h1, h2, h3, h4, emit, hr, orError,
                processingMessage]
              exact .pdfThrew hp h1 h2 h3 h4 _ hx
  · by_cases hi : startsWith f.type imagePrefix = true
    · rcases extract_run w with ⟨hx, hr⟩ | ⟨hx, hr⟩
      · simp [Js.bind, tryCatch, tryFinally, emit, hp, hi, hr]
        exact .image hp hi _ hx
      · simp [Js.bind, tryCatch, tryFinally, emit, hp, hi, hr, orError, processingMessage]
        exact .imageThrew hp hi _ hx
    · simp [Js.bind, tryCatch, tryFinally, emit, hp, hi]
      exact .unsupported hp (by simpa using hi)

theorem handleFileUpload_result (w : World) (file : Option File) :
    (handleFileUpload w file).result = .ok () := by
  cases file with
  | none => rfl
  | some f =>
    unfold handleFileUpload
    simp only [bind_eq, Js.bind, emit, tryFinally, tryCatch]
    split
    · next u h => cases u; exact h
    · rfl

/-! ## Claims about the handler -/

theorem handleFileUpload_unsupported (w : World) (f : File)
    (hp : f.type ≠ pdfType) (hi : startsWith f.type imagePrefix = false) :
    (handleFileUpload w (some f)).trace
        = [.setLoading true, .alert unsupportedMessage, .setLoading false] := by
  have h := handle_run w f
  revert h
  generalize (handleFileUpload w (some f)).trace = T
  intro h
  cases h
  case unsupported => rfl
  all_goals (exfalso; simp_all)

/-- C7: a file whose type is neither `application/pdf` nor an `image/` type
makes no pipeline call at all; the run shows the alert, a failure
notification, and does not reset the form. -/
theorem unsupported_type_rejected (w : World) (f : File)
    (hp : f.type ≠ pdfType) (hi : startsWith f.type imagePrefix = false) :
    (handleFileUpload w (some f)).trace
        = [.setLoading true, .alert unsupportedMessage, .setLoading false]
    ∧ stages (handleFileUpload w (some f)).trace = []
    ∧ ((handleFileUpload w (some f)).trace.all fun e => !e.isCall) = true
    ∧ notifications (handleFileUpload w (some f)).trace = [.alert unsupportedMessage]
    ∧ Effect.reset ∉ (handleFileUpload w (some f)).trace := by
  rw [handleFileUpload_unsupported w f hp hi]
  simp

theorem unsupported_type_rejected_witness :
    (handleFileUpload (happyWorld [] [] 200) (some ⟨"text/plain".toList⟩)).trace
        = [.setLoading true, .alert unsupportedMessage, .setLoading false]
    ∧ stages (handleFileUpload (happyWorld [] [] 200) (some ⟨"text/plain".toList⟩)).trace = []
    ∧ ((handleFileUpload (happyWorld [] [] 200) (some ⟨"text/plain".toList⟩)).trace.all
        fun e => !e.isCall) = true
    ∧ notifications (handleFileUpload (happyWorld [] [] 200) (some ⟨"text/plain".toList⟩)).trace
        = [.alert unsupportedMessage]
    ∧ Effect.reset ∉ (handleFileUpload (happyWorld [] [] 200) (some ⟨"text/plain".toList⟩)).trace :=
  unsupported_type_rejected (happyWorld [] [] 200) ⟨"text/plain".toList⟩ (by decide) (by decide)

/-- C8, as stated, fails: for a `text/plain` file the one notification of
the run is the alert dialog, which is neither the success toast nor an
error toast. -/
theorem alert_is_the_only_notification :
    notifications (handleFileUpload (happyWorld [] [] 200) (some textFile)).trace
      = [.alert unsupportedMessage]
    ∧ (Effect.alert unsupportedMessage).isToastSuccess = false
    ∧ (Effect.alert unsupportedMessage).isToastError = false := ⟨rfl, rfl, rfl⟩

/-- C8, amended: every run with a file present shows exactly one
notification: the success toast, an error toast, or (only for an
unsupported type) the alert; the handler returns normally; once OCR has
been invoked the one notification is a toast. -/
theorem one_notification_per_run (w : World) (f : File) :
    (∃ n, notifications (handleFileUpload w (some f)).trace = [n]
      ∧ (n.isToastSuccess = true ∨ n.isToastError = true
          ∨ (n = .alert unsupportedMessage ∧ pipeline f = [])))
    ∧ (handleFileUpload w (some f)).result = .ok ()
    ∧ (∀ r, Effect.call .recognize r ∈ (handleFileUpload w (some f)).trace →
        ∃ n, notifications (handleFileUpload w (some f)).trace = [n]
          ∧ (n.isToastSuccess = true ∨ n.isToastError = true)) := by
  refine ⟨?_, handleFileUpload_result w (some f), ?_⟩
  · have h := handle_run w f
    revert h
    generalize (handleFileUpload w (some f)).trace = T
    intro h
    cases h
    case image hx => cases hx <;> simp
    case imageThrew hx => cases hx <;> simp
    case pdf hx => cases hx <;> simp
    case pdfThrew hx => cases hx <;> simp
    case unsupported hp hi => simp [pipeline, hp, hi]
    all_goals simp
  · have h := handle_run w f
    revert h
    generalize (handleFileUpload w (some f)).trace = T
    intro h
    cases h
    case image hx => cases hx <;> simp
    case imageThrew hx => cases hx <;> simp
    case pdf hx => cases hx <;> simp
    case pdfThrew hx => cases hx <;> simp
    all_goals simp

/-- C5: the success toast is shown, and the form reset, exactly when the
storage POST returned with status 200; in every other run the one
notification is a failure notification. -/
theorem success_iff_status_200 (w : World) (f : File) :
    ((∃ m, Effect.toastSuccess m ∈ (handleFileUpload w (some f)).trace) ↔
      ∃ v, Effect.call (.sheetsPost v) none ∈ (handleFileUpload w (some f)).trace
        ∧ w.sheetsPost v = .ok 200)
    ∧ (Effect.reset ∈ (handleFileUpload w (some f)).trace ↔
      ∃ v, Effect.call (.sheetsPost v) none ∈ (handleFileUpload w (some f)).trace
        ∧ w.sheetsPost v = .ok 200)
    ∧ ((¬ ∃ v, Effect.call (.sheetsPost v) none ∈ (handleFileUpload w (some f)).trace
          ∧ w.sheetsPost v = .ok 200) →
        ∃ n, notifications (handleFileUpload w (some f)).trace = [n]
          ∧ (n.isToastError = true ∨ n.isAlert = true)) := by
  have h := handle_run w f
  revert h
  generalize (handleFileUpload w (some f)).trace = T
  intro h
  cases h
  case image hx => cases hx <;> simp_all
  case imageThrew hx => cases hx <;> simp_all
  case pdf hx => cases hx <;> simp_all
  case pdfThrew hx => cases hx <;> simp_all
  all_goals simp

theorem loadingAfter_of_no_setLoading (b : Bool) (l : List Effect)
    (h : (l.all fun e => !e.isSetLoading) = true) : loadingAfter b l = b := by
  induction l generalizing b with
  | nil => rfl
  | cons e t ih =>
    simp only [List.all_cons, Bool.and_eq_true] at h
    have ht := ih b h.2
    cases e <;> simp_all [loadingAfter]

theorem loadingAfter_append (b : Bool) (l₁ l₂ : List Effect) :
    loadingAfter b (l₁ ++ l₂) = loadingAfter (loadingAfter b l₁) l₂ := by
  simp [loadingAfter, List.foldl_append]

theorem handleFileUpload_shape (w : World) (f : File) :
    ∃ mid, (handleFileUpload w (some f)).trace
        = .setLoading true :: (mid ++ [.setLoading false])
      ∧ (mid.all fun e => !e.isSetLoading) = true := by
  have h := handle_run w f
  revert h
  generalize (handleFileUpload w (some f)).trace = T
  intro h
  cases h
  case image tr hx => exact ⟨tr, rfl, by cases hx <;> simp⟩
  case imageThrew tr hx =>
    exact ⟨tr ++ [.toastError (.text processingMessage)], by simp, by cases hx <;> simp⟩
  case pdf tr hx =>
    refine ⟨.call .arrayBuffer none :: .call .getDocument none ::
      .call .getPage none :: .call .render none :: tr, rfl, ?_⟩
    cases hx <;> simp
  case pdfThrew tr hx =>
    refine ⟨.call .arrayBuffer none :: .call .getDocument none ::
      .call .getPage none :: .call .render none :: tr
      ++ [.toastError (.text processingMessage)], by simp, ?_⟩
    cases hx <;> simp
  case unsupported => exact ⟨[.alert unsupportedMessage], rfl, by simp⟩
  case arrayBufferFailed e _ =>
    exact ⟨[.call .arrayBuffer (some e), .toastError (.text processingMessage)], rfl, by simp⟩
  case getDocumentFailed e _ _ =>
    exact ⟨[.call .arrayBuffer none, .call .getDocument (some e),
      .toastError (.text processingMessage)], rfl, by simp⟩
  case getPageFailed e _ _ _ =>
    exact ⟨[.call .arrayBuffer none, .call .getDocument none, .call .getPage (some e),
      .toastError (.text processingMessage)], rfl, by simp⟩
  case renderFailed e _ _ _ _ =>
    exact ⟨[.call .arrayBuffer none, .call .getDocument none, .call .getPage none,
      .call .render (some e), .toastError (.text processingMessage)], rfl, by simp⟩

theorem loadingAfter_handleFileUpload (b : Bool) (w : World) (file : Option File)
    (hb : b = false) : loadingAfter b (handleFileUpload w file).trace = false := by
  cases file with
  | none => subst hb; rfl
  | some f =>
    obtain ⟨mid, hT, -⟩ := handleFileUpload_shape w f
    rw [hT]
    simp [loadingAfter, List.foldl_append]

theorem loadingAfter_session (runs : List (World × Option File)) :
    loadingAfter false (session runs) = false := by
  induction runs with
  | nil => rfl
  | cons r rest ih =>
    rw [session, loadingAfter_append, loadingAfter_handleFileUpload _ _ _ rfl, ih]

/-- C3: a run with a file present sets `loading` to true first and to
false last and touches it nowhere in between, whatever the stages do; it
returns normally; `loading` is true at every point strictly inside the run;
a run without a file leaves it alone; starting from `useState(false)`,
`loading` is false before and after every run of a session. -/
theorem loading_never_stuck (w : World) (f : File) (runs : List (World × Option File)) :
    (∃ mid, (handleFileUpload w (some f)).trace
        = .setLoading true :: (mid ++ [.setLoading false])
      ∧ (mid.all fun e => !e.isSetLoading) = true)
    ∧ (handleFileUpload w (some f)).result = .ok ()
    ∧ (∀ pre post, (handleFileUpload w (some f)).trace = pre ++ post → pre ≠ [] → post ≠ [] →
        loadingAfter false pre = true)
    ∧ loadingAfter false (handleFileUpload w (some f)).trace = false
    ∧ (handleFileUpload w none).trace = []
    ∧ loadingAfter false (session runs) = false := by
  refine ⟨handleFileUpload_shape w f, handleFileUpload_result w (some f), ?_,
    loadingAfter_handleFileUpload _ w (some f) rfl, rfl, loadingAfter_session runs⟩
  obtain ⟨mid, hT, hmid⟩ := handleFileUpload_shape w f
  intro pre post hsplit hpre hpost
  rw [hT] at hsplit
  cases pre with
  | nil => exact absurd rfl hpre
  | cons a pre' =>
    simp only [List.cons_append, List.cons.injEq] at hsplit
    obtain ⟨ha, hrest⟩ := hsplit
    subst ha
    have hsub : ∃ t, mid = pre' ++ t := by
      rcases List.append_eq_append_iff.mp hrest.symm with ⟨a', h1, -⟩ | ⟨c', h1, h2⟩
      · exact ⟨a', h1⟩
      · cases c' with
        | nil => exact ⟨[], by simpa using h1.symm⟩
        | cons x c'' =>
          simp at h2
          exact absurd h2.2.2 hpost
    obtain ⟨t, ht⟩ := hsub
    subst ht
    simp only [List.all_append, Bool.and_eq_true] at hmid
    have := loadingAfter_of_no_setLoading true pre' hmid.1
    simpa [loadingAfter] using this

/-! ## The stage sequence -/

theorem stages_eq_untilFailure (w : World) (f : File) :
    stages (handleFileUpload w (some f)).trace
      = untilFailure (stageSucceeds w) (pipeline f) := by
  have h := handle_run w f
  revert h
  generalize (handleFileUpload w (some f)).trace = T
  intro h
  cases h
  case image hp hi tr hx =>
    cases hx <;>
      simp_all [pipeline, untilFailure, stageSucceeds, rawTextOf, replyOf, recordOf, bodyOf,
        thrownBy]
  case imageThrew hp hi tr hx =>
    cases hx <;>
      simp_all [pipeline, untilFailure, stageSucceeds, rawTextOf, replyOf, recordOf, bodyOf,
        thrownBy]
  case pdf hp _ _ _ _ tr hx =>
    cases hx <;>
      simp_all [pipeline, untilFailure, stageSucceeds, rawTextOf, replyOf, recordOf, bodyOf,
        thrownBy]
  case pdfThrew hp _ _ _ _ tr hx =>
    cases hx <;>
      simp_all [pipeline, untilFailure, stageSucceeds, rawTextOf, replyOf, recordOf, bodyOf,
        thrownBy]
  all_goals
    simp_all [pipeline, untilFailure, stageSucceeds, rawTextOf, replyOf, recordOf, bodyOf,
      thrownBy]

theorem extract_truthful (w : World) (tr : List Effect) (b : Bool) (hx : ExtractRun w tr b) :
    ∀ e ∈ tr, e.truthful w := by
  cases hx with
  | ocrNullish h1 => simp [Effect.truthful, Call.outcome, Call.fed, thrownBy, h1]
  | ocrFailed e h1 => simp [Effect.truthful, Call.outcome, Call.fed, thrownBy, h1]
  | completionNullish text h1 h2 =>
    simp [Effect.truthful, Call.outcome, Call.fed, thrownBy, rawTextOf, h1, h2]
  | completionFailed text e h1 h2 =>
    simp [Effect.truthful, Call.outcome, Call.fed, thrownBy, rawTextOf, h1, h2]
  | parseFailed text content h1 h2 h3 =>
    simp [Effect.truthful, Call.outcome, Call.fed, thrownBy, rawTextOf, replyOf, h1, h2, h3]
  | encodeNullish text content v h1 h2 h3 h4 =>
    simp [Effect.truthful, Call.outcome, Call.fed, thrownBy, rawTextOf, replyOf, recordOf,
      h1, h2, h3, h4]
  | encodeFailed text content v e h1 h2 h3 h4 =>
    simp [Effect.truthful, Call.outcome, Call.fed, thrownBy, rawTextOf, replyOf, recordOf,
      h1, h2, h3, h4]
  | postNullish text content v body h1 h2 h3 h4 h5 =>
    simp [Effect.truthful, Call.outcome, Call.fed, thrownBy, rawTextOf, replyOf, recordOf,
      bodyOf, h1, h2, h3, h4, h5]
  | postFailed text content v body e h1 h2 h3 h4 h5 =>
    simp [Effect.truthful, Call.outcome, Call.fed, thrownBy, rawTextOf, replyOf, recordOf,
      bodyOf, h1, h2, h3, h4, h5]
  | rejected text content v body status h1 h2 h3 h4 h5 h6 =>
    simp [Effect.truthful, Call.outcome, Call.fed, thrownBy, rawTextOf, replyOf, recordOf,
      bodyOf, h1, h2, h3, h4, h5]
  | stored text content v body h1 h2 h3 h4 h5 =>
    simp [Effect.truthful, Call.outcome, Call.fed, thrownBy, rawTextOf, replyOf, recordOf,
      bodyOf, h1, h2, h3, h4, h5]

theorem calls_truthful (w : World) (f : File) :
    ∀ e ∈ (handleFileUpload w (some f)).trace, e.truthful w := by
  have h := handle_run w f
  revert h
  generalize (handleFileUpload w (some f)).trace = T
  intro h
  cases h with
  | unsupported hp hi => simp [Effect.truthful]
  | image hp hi tr hx =>
    have ht := extract_truthful w tr _ hx
    intro e he
    simp only [List.cons_append, List.mem_cons, List.mem_append, List.mem_singleton,
      List.not_mem_nil, or_false] at he
    rcases he with rfl | he | rfl
    · trivial
    · exact ht e he
    · trivial
  | imageThrew hp hi tr hx =>
    have ht := extract_truthful w tr _ hx
    intro e he
    simp only [List.cons_append, List.mem_cons, List.mem_append, List.mem_singleton,
      List.not_mem_nil, or_false] at he
    rcases he with rfl | he | rfl | rfl
    · trivial
    · exact ht e he
    · trivial
    · trivial
  | arrayBufferFailed hp t h1 => simp [Effect.truthful, Call.outcome, Call.fed, thrownBy, h1]
  | getDocumentFailed hp t h1 h2 =>
    simp [Effect.truthful, Call.outcome, Call.fed, thrownBy, h1, h2]
  | getPageFailed hp t h1 h2 h3 =>
    simp [Effect.truthful, Call.outcome, Call.fed, thrownBy, h1, h2, h3]
  | renderFailed hp t h1 h2 h3 h4 =>
    simp [Effect.truthful, Call.outcome, Call.fed, thrownBy, h1, h2, h3, h4]
  | pdf hp h1 h2 h3 h4 tr hx =>
    have ht := extract_truthful w tr _ hx
    intro e he
    simp only [List.cons_append, List.mem_cons, List.mem_append, List.mem_singleton,
      List.not_mem_nil, or_false] at he
    rcases he with rfl | rfl | rfl | rfl | rfl | he | rfl
    · trivial
    · simp [Effect.truthful, Call.outcome, Call.fed, thrownBy, h1]
    · simp [Effect.truthful, Call.outcome, Call.fed, thrownBy, h2]
    · simp [Effect.truthful, Call.outcome, Call.fed, thrownBy, h3]
    · simp [Effect.truthful, Call.outcome, Call.fed, thrownBy, h4]
    · exact ht e he
    · trivial
  | pdfThrew hp h1 h2 h3 h4 tr hx =>
    have ht := extract_truthful w tr _ hx
    intro e he
    simp only [List.cons_append, List.mem_cons, List.mem_append, List.mem_singleton,
      List.not_mem_nil, or_false] at he
    rcases he with rfl | rfl | rfl | rfl | rfl | he | rfl | rfl
    · trivial
    · simp [Effect.truthful, Call.outcome, Call.fed, thrownBy, h1]
    · simp [Effect.truthful, Call.outcome, Call.fed, thrownBy, h2]
    · simp [Effect.truthful, Call.outcome, Call.fed, thrownBy, h3]
    · simp [Effect.truthful, Call.outcome, Call.fed, thrownBy, h4]
    · exact ht e he
    · trivial
    · trivial

theorem stages_abort (w : World) (f : File) :
    stages (handleFileUpload w (some f)).trace <+: pipeline f
    ∧ abortsOnFailure (handleFileUpload w (some f)).trace = true
    ∧ (allCallsReturned (handleFileUpload w (some f)).trace = true →
        stages (handleFileUpload w (some f)).trace = pipeline f) := by
  have h := handle_run w f
  revert h
  generalize (handleFileUpload w (some f)).trace = T
  intro h
  cases h
  case image hp hi tr hx => cases hx <;> simp_all [pipeline]
  case imageThrew hp hi tr hx => cases hx <;> simp_all [pipeline]
  case pdf hp _ _ _ _ tr hx => cases hx <;> simp_all [pipeline]
  case pdfThrew hp _ _ _ _ tr hx => cases hx <;> simp_all [pipeline]
  all_goals simp_all [pipeline]

theorem post_after_parse (w : World) (f : File) :
    (∀ body r, Effect.call (.sheetsPost body) r ∈ (handleFileUpload w (some f)).trace →
        ∃ text content v, w.recognize = .ok text
          ∧ w.completion (prompt (trim text)) = .ok content
          ∧ JSON_parse (structuredData content) = some v
          ∧ w.urlSearchParams v = .ok body)
    ∧ (∀ p content, Effect.call (.completionPost p) none ∈ (handleFileUpload w (some f)).trace →
        w.completion p = .ok content → JSON_parse (structuredData content) = none →
        notifications (handleFileUpload w (some f)).trace = [.toastError (.text fallbackMessage)]
        ∧ ((handleFileUpload w (some f)).trace.all fun e => !e.isSheetsPost) = true) := by
  have h := handle_run w f
  revert h
  generalize (handleFileUpload w (some f)).trace = T
  intro h
  cases h
  case image hp hi tr hx => cases hx <;> simp_all
  case imageThrew hp hi tr hx => cases hx <;> simp_all
  case pdf hp _ _ _ _ tr hx => cases hx <;> simp_all
  case pdfThrew hp _ _ _ _ tr hx => cases hx <;> simp_all
  all_goals simp_all

/-- C2: the stages a run invokes are exactly the stages of its file's
sequence (rasterization only for a PDF, then OCR, completion, JSON parsing,
form encoding, storage POST), in this order, up to and including the first
one that fails in the world of the run; every recorded call has the outcome
the world gives it and, as argument, what the stages before it produced; so
no call follows a failed stage, and all stages run when none fails; a
storage POST is issued only after `JSON.parse` of the fence-stripped reply
succeeded and carries the form encoding of its result; a reply that does
not parse ends in the fallback error toast with no storage POST. -/
theorem stages_in_strict_sequence (w : World) (f : File) :
    stages (handleFileUpload w (some f)).trace = untilFailure (stageSucceeds w) (pipeline f)
    ∧ (∀ e ∈ (handleFileUpload w (some f)).trace, e.truthful w)
    ∧ stages (handleFileUpload w (some f)).trace <+: pipeline f
    ∧ abortsOnFailure (handleFileUpload w (some f)).trace = true
    ∧ (allCallsReturned (handleFileUpload w (some f)).trace = true →
        stages (handleFileUpload w (some f)).trace = pipeline f)
    ∧ (∀ body r, Effect.call (.sheetsPost body) r ∈ (handleFileUpload w (some f)).trace →
        ∃ text content v, w.recognize = .ok text
          ∧ w.completion (prompt (trim text)) = .ok content
          ∧ JSON_parse (structuredData content) = some v
          ∧ w.urlSearchParams v = .ok body)
    ∧ (∀ p content, Effect.call (.completionPost p) none ∈ (handleFileUpload w (some f)).trace →
        w.completion p = .ok content → JSON_parse (structuredData content) = none →
        notifications (handleFileUpload w (some f)).trace = [.toastError (.text fallbackMessage)]
        ∧ ((handleFileUpload w (some f)).trace.all fun e => !e.isSheetsPost) = true) :=
  ⟨stages_eq_untilFailure w f, calls_truthful w f, (stages_abort w f).1, (stages_abort w f).2.1,
    (stages_abort w f).2.2, (post_after_parse w f).1, (post_after_parse w f).2⟩

/-! ## Claims about the record and the failure message -/

/-- C4, as stated, fails: OCR reads nothing, the completion replies `{}`,
the storage endpoint answers 200.  The reply parses to an object without a
single schema key; its form encoding (the empty string) is posted and the
run ends in the success toast. -/
theorem keyless_record_submitted :
    (handleFileUpload (happyWorld [] "\x7b\x7d".toList 200) (some pngFile)).trace
      = [.setLoading true, .call .recognize none, .call (.completionPost (prompt [])) none,
          .call (.jsonParse "\x7b\x7d".toList) none, .call (.urlSearchParams (.obj [])) none,
          .call (.sheetsPost []) none, .toastSuccess successMessage, .reset,
          .setLoading false]
    ∧ (schemaKeys.all fun k => !(Json.obj []).keys.contains k) = true := ⟨rfl, by decide⟩

theorem record_dichotomy (w : World) (f : File) (text content : List Char)
    (hocr : Effect.call .recognize none ∈ (handleFileUpload w (some f)).trace)
    (h1 : w.recognize = .ok text) (h2 : w.completion (prompt (trim text)) = .ok content) :
    (JSON_parse (structuredData content) = none →
        notifications (handleFileUpload w (some f)).trace = [.toastError (.text fallbackMessage)]
        ∧ ((handleFileUpload w (some f)).trace.all fun e => !e.isSheetsPost) = true)
    ∧ (∀ v, JSON_parse (structuredData content) = some v →
        Effect.call (.urlSearchParams v) (thrownBy (w.urlSearchParams v))
          ∈ (handleFileUpload w (some f)).trace
        ∧ (∀ body, w.urlSearchParams v = .ok body →
            Effect.call (.sheetsPost body) (thrownBy (w.sheetsPost body))
              ∈ (handleFileUpload w (some f)).trace)
        ∧ (∀ t, w.urlSearchParams v = .error t →
            (∃ n, notifications (handleFileUpload w (some f)).trace = [n]
              ∧ n.isToastError = true)
            ∧ ((handleFileUpload w (some f)).trace.all fun e => !e.isSheetsPost) = true)) := by
  have h := handle_run w f
  revert h hocr
  generalize (handleFileUpload w (some f)).trace = T
  intro hocr h
  cases h
  case image hp hi tr hx => cases hx <;> simp_all [thrownBy]
  case imageThrew hp hi tr hx => cases hx <;> simp_all [thrownBy]
  case pdf hp _ _ _ _ tr hx => cases hx <;> simp_all [thrownBy]
  case pdfThrew hp _ _ _ _ tr hx => cases hx <;> simp_all [thrownBy]
  all_goals simp_all

/-- C4, amended: take a run in which OCR returned a text and the completion
request returned a reply.  If the fence-stripped reply does not parse, the
run ends in the fallback error toast and posts nothing.  If it parses, the
value `JSON.parse` returns is handed to `URLSearchParams` as it is, with no
check of its keys against the schema: when that yields a body the body is
posted, and when that throws the run ends in one error toast and posts
nothing.  Nothing is posted but the form encoding of that value. -/
theorem parsed_reply_submitted_as_is (w : World) (f : File) (text content : List Char)
    (hocr : Effect.call .recognize none ∈ (handleFileUpload w (some f)).trace)
    (h1 : w.recognize = .ok text) (h2 : w.completion (prompt (trim text)) = .ok content) :
    (JSON_parse (structuredData content) = none →
        notifications (handleFileUpload w (some f)).trace = [.toastError (.text fallbackMessage)]
        ∧ ((handleFileUpload w (some f)).trace.all fun e => !e.isSheetsPost) = true)
    ∧ (∀ v, JSON_parse (structuredData content) = some v →
        Effect.call (.urlSearchParams v) (thrownBy (w.urlSearchParams v))
          ∈ (handleFileUpload w (some f)).trace
        ∧ (∀ body, w.urlSearchParams v = .ok body →
            Effect.call (.sheetsPost body) (thrownBy (w.sheetsPost body))
              ∈ (handleFileUpload w (some f)).trace)
        ∧ (∀ t, w.urlSearchParams v = .error t →
            (∃ n, notifications (handleFileUpload w (some f)).trace = [n]
              ∧ n.isToastError = true)
            ∧ ((handleFileUpload w (some f)).trace.all fun e => !e.isSheetsPost) = true))
    ∧ (∀ body r, Effect.call (.sheetsPost body) r ∈ (handleFileUpload w (some f)).trace →
        ∃ v, JSON_parse (structuredData content) = some v ∧ w.urlSearchParams v = .ok body) := by
  refine ⟨(record_dichotomy w f text content hocr h1 h2).1,
    (record_dichotomy w f text content hocr h1 h2).2, ?_⟩
  intro body r hb
  obtain ⟨text', content', v, e1, e2, e3, e4⟩ := (post_after_parse w f).1 body r hb
  rw [h1] at e1
  cases e1
  rw [h2] at e2
  cases e2
  exact ⟨v, e3, e4⟩

theorem happy_png_trace :
    (handleFileUpload (happyWorld [] "\x7b\x7d".toList 200) (some pngFile)).trace
      = [.setLoading true, .call .recognize none, .call (.completionPost (prompt [])) none,
          .call (.jsonParse "\x7b\x7d".toList) none, .call (.urlSearchParams (.obj [])) none,
          .call (.sheetsPost []) none, .toastSuccess successMessage, .reset,
          .setLoading false] := rfl

theorem parsed_reply_submitted_as_is_witness :
    Effect.call (.urlSearchParams (.obj [])) none
        ∈ (handleFileUpload (happyWorld [] "\x7b\x7d".toList 200) (some pngFile)).trace
    ∧ Effect.call (.sheetsPost []) none
        ∈ (handleFileUpload (happyWorld [] "\x7b\x7d".toList 200) (some pngFile)).trace :=
  have h := parsed_reply_submitted_as_is (happyWorld [] "\x7b\x7d".toList 200) pngFile []
    "\x7b\x7d".toList (by rw [happy_png_trace]; simp) rfl rfl
  ⟨(h.2.1 (.obj []) rfl).1, (h.2.1 (.obj []) rfl).2.1 [] rfl⟩

/-- C6, as stated, fails: for a PNG upload whose OCR call throws an error
with the message `Network error` and no HTTP response, the error carries a
message, yet the toast shows the fallback text. -/
theorem most_specific_message_counterexample :
    raised (handleFileUpload (failingOcrWorld ⟨"Network error".toList, none⟩) (some pngFile)).trace
      = some (.error ⟨"Network error".toList, none⟩)
    ∧ availableMessage ⟨"Network error".toList, none⟩ = some "Network error".toList
    ∧ notifications
        (handleFileUpload (failingOcrWorld ⟨"Network error".toList, none⟩) (some pngFile)).trace
      = [.toastError (.text "OCR or API error".toList)]
    ∧ "OCR or API error".toList ≠ "Network error".toList := ⟨rfl, rfl, rfl, by decide⟩

/-- C6, amended: when a run fails after OCR has been invoked (at OCR, the
completion request, JSON parsing, form encoding, the storage POST or the
status check) and what was thrown is an error object, not `undefined` or
`null`, the one notification is an error toast whose text is
`error.response.data.message` when the error carries a non-empty one, and
the fixed text `OCR or API error` otherwise. -/
theorem inner_failure_message (w : World) (f : File) (e : JsError) (r : Option Thrown)
    (hocr : Effect.call .recognize r ∈ (handleFileUpload w (some f)).trace)
    (he : raised (handleFileUpload w (some f)).trace = some (.error e)) :
    notifications (handleFileUpload w (some f)).trace
      = [.toastError (.text (orString e.responseMessage fallbackMessage))]
    ∧ (∀ m, e.responseMessage = some m → m ≠ [] →
        notifications (handleFileUpload w (some f)).trace = [.toastError (.text m)])
    ∧ ((e.responseMessage = none ∨ e.responseMessage = some []) →
        notifications (handleFileUpload w (some f)).trace
          = [.toastError (.text fallbackMessage)]) := by
  have key : notifications (handleFileUpload w (some f)).trace
      = [.toastError (.text (orString e.responseMessage fallbackMessage))] := by
    have h := handle_run w f
    revert h hocr he
    generalize (handleFileUpload w (some f)).trace = T
    intro hocr he h
    cases h
    case image hx => cases hx <;> simp_all <;> (subst he; rfl)
    case imageThrew hx => cases hx <;> simp_all
    case pdf hx => cases hx <;> simp_all <;> (subst he; rfl)
    case pdfThrew hx => cases hx <;> simp_all
    all_goals simp_all
  refine ⟨key, ?_, ?_⟩
  · intro m hm hne
    rw [key, hm]
    cases m with
    | nil => exact absurd rfl hne
    | cons c t => rfl
  · intro hm
    rw [key]
    rcases hm with hm | hm <;> rw [hm] <;> rfl

theorem inner_failure_message_witness :
    notifications (handleFileUpload
        (failingCompletionWorld [] ⟨"Request failed".toList, some "Rate limit".toList⟩)
        (some pngFile)).trace
      = [.toastError (.text (orString (some "Rate limit".toList) fallbackMessage))]
    ∧ (∀ m, some "Rate limit".toList = some m → m ≠ [] →
        notifications (handleFileUpload
          (failingCompletionWorld [] ⟨"Request failed".toList, some "Rate limit".toList⟩)
          (some pngFile)).trace = [.toastError (.text m)])
    ∧ ((some "Rate limit".toList = none ∨ some "Rate limit".toList = some []) →
        notifications (handleFileUpload
          (failingCompletionWorld [] ⟨"Request failed".toList, some "Rate limit".toList⟩)
          (some pngFile)).trace = [.toastError (.text fallbackMessage)]) :=
  inner_failure_message
    (failingCompletionWorld [] ⟨"Request failed".toList, some "Rate limit".toList⟩) pngFile
    ⟨"Request failed".toList, some "Rate limit".toList⟩ none
    (by simp [handleFileUpload, pngFile, pdfType, startsWith, imagePrefix, extractTextFromImage,
      extractTextFromImageBody, extractTextFromImageCatch, Js.bind, call, tryCatch, tryFinally,
      emit, failingCompletionWorld])
    rfl

/-! ## Claims about the prompt and the untagged fence -/

theorem takeThrough_append (c : Char) (a b : List Char) (h : c ∉ a) :
    takeThrough c (a ++ c :: b) = a ++ [c] := by
  induction a with
  | nil => simp [takeThrough]
  | cons x t ih =>
    have hx : x ≠ c := fun hxc => h (by simp [hxc])
    have ht : c ∉ t := fun hm => h (List.mem_cons_of_mem _ hm)
    simp [takeThrough, hx, ih ht]

set_option maxRecDepth 100000 in
theorem embeddedTemplate_prompt (rawText : List Char) :
    embeddedTemplate (prompt rawText) = schemaTemplate := by
  have h1 : ∀ a ∈ promptIntro, (fun c => c != Char.ofNat 123) a = true := by decide
  have h2 : schemaTemplate = Char.ofNat 123 :: (schemaTemplate.drop 1) := by decide
  have h3 : schemaTemplate.drop 1
      = (schemaTemplate.drop 1).dropLast ++ [Char.ofNat 125] := by decide
  have h4 : Char.ofNat 125 ∉ Char.ofNat 123 :: (schemaTemplate.drop 1).dropLast := by decide
  unfold embeddedTemplate prompt
  rw [List.append_assoc, List.append_assoc, List.dropWhile_append_of_pos h1]
  generalize hb : (schemaTemplate.drop 1).dropLast = body at h3 h4
  rw [h2, h3]
  simp only [List.cons_append, List.dropWhile_cons]
  have e : Char.ofNat 123 :: (body ++ [Char.ofNat 125] ++ (promptTextLabel ++ rawText))
      = (Char.ofNat 123 :: body) ++ Char.ofNat 125 :: (promptTextLabel ++ rawText) := by simp
  simp only [show (Char.ofNat 123 != Char.ofNat 123) = false by decide]
  simp only [Bool.false_eq_true, if_false]
  rw [e, takeThrough_append _ _ _ h4]
  simp

theorem schemaTemplate_keys : (JSON_parse schemaTemplate).map Json.keys = some schemaKeys := by
  decide

/-- C9, as stated, fails: the schema template of the prompt parses to an
object with eleven property names, not nine. -/
theorem schema_template_key_count :
    (JSON_parse (embeddedTemplate (prompt []))).map (fun v => v.keys.length) = some 11
    ∧ (JSON_parse (embeddedTemplate (prompt []))).map (fun v => v.keys.length) ≠ some 9 := by
  rw [embeddedTemplate_prompt]
  constructor <;> decide

/-- C9, amended: for every raw text the object literal embedded in the
prompt is the template of lines 60-72; it parses to an object whose
property names are the eleven names `invoice_number`, `supplier`,
`invoice_date`, `due_date`, `total_amount`, `currency`, `description`,
`po`, `IGST`, `CGST`, `SGST` in this order; the raw text follows the
template and its `Text:` label verbatim, at the very end of the prompt; and
the completion request of a run carries this prompt for the trimmed OCR
text. -/
theorem prompt_schema_template (rawText : List Char) (w : World) (f : File) :
    (JSON_parse (embeddedTemplate (prompt rawText))).map Json.keys = some schemaKeys
    ∧ schemaKeys.length = 11
    ∧ prompt rawText = promptIntro ++ embeddedTemplate (prompt rawText) ++ promptTextLabel ++ rawText
    ∧ (∀ p r, Effect.call (.completionPost p) r ∈ (handleFileUpload w (some f)).trace →
        ∃ text, w.recognize = .ok text ∧ p = prompt (trim text)) := by
  refine ⟨?_, rfl, ?_, ?_⟩
  · rw [embeddedTemplate_prompt]
    exact schemaTemplate_keys
  · rw [embeddedTemplate_prompt]
    rfl
  · have h := handle_run w f
    revert h
    generalize (handleFileUpload w (some f)).trace = T
    intro h
    cases h
    case image hx => cases hx <;> simp_all
    case imageThrew hx => cases hx <;> simp_all
    case pdf hx => cases hx <;> simp_all
    case pdfThrew hx => cases hx <;> simp_all
    all_goals simp_all

theorem JSON_parse_letter_j (rest : List Char) : JSON_parse ('j' :: rest) = none := rfl

theorem bare_fence_untagged (ws1 j ws2 : List Char) (v : Json)
    (hj : JSON_parse j = some v) (h1 : ∀ c ∈ ws1, isJsWhiteSpace c = true) :
    startsWith (fenceClose ++ ws1 ++ j ++ ws2 ++ fenceClose) fenceOpen = false := by
  cases ws1 with
  | nil =>
    cases j with
    | nil => rw [JSON_parse_nil] at hj; cases hj
    | cons c t =>
      by_cases hc : c = 'j'
      · subst hc
        rw [JSON_parse_letter_j] at hj
        cases hj
      · simp [startsWith, fenceClose, fenceOpen, List.isPrefixOf]
        intro h
        exact absurd h.symm hc
  | cons d t =>
    have hd : isJsWhiteSpace d = true := h1 d (by simp)
    have hne : d ≠ 'j' := by
      intro h
      subst h
      exact absurd hd (by decide)
    simp [startsWith, fenceClose, fenceOpen, List.isPrefixOf]
    intro h
    exact absurd h.symm hne

theorem trim_bare_fence (body : List Char) :
    trim (fenceClose ++ body ++ fenceClose) = fenceClose ++ body ++ fenceClose := by
  apply trim_eq_self
  · intro c hc
    simp [fenceClose] at hc
    subst hc; rfl
  · intro c hc
    have e : fenceClose.getLast? = some (Char.ofNat 96) := rfl
    rw [List.getLast?_append, e] at hc
    simp at hc
    subst hc; rfl

theorem unparsable_reply_fails (w : World) (f : File) (p content : List Char)
    (hp : Effect.call (.completionPost p) none ∈ (handleFileUpload w (some f)).trace)
    (hc : w.completion p = .ok content) (hn : JSON_parse (structuredData content) = none) :
    notifications (handleFileUpload w (some f)).trace = [.toastError (.text fallbackMessage)]
    ∧ ((handleFileUpload w (some f)).trace.all fun e => !e.isSheetsPost) = true := by
  have h := handle_run w f
  revert h hp
  generalize (handleFileUpload w (some f)).trace = T
  intro hp h
  cases h
  case image hx => cases hx <;> simp_all
  case imageThrew hx => cases hx <;> simp_all
  case pdf hx => cases hx <;> simp_all
  case pdfThrew hx => cases hx <;> simp_all
  all_goals simp_all

theorem reply_is_parsed (w : World) (f : File) (p content : List Char)
    (hp : Effect.call (.completionPost p) none ∈ (handleFileUpload w (some f)).trace)
    (hc : w.completion p = .ok content) :
    ∃ r, Effect.call (.jsonParse (structuredData content)) r
      ∈ (handleFileUpload w (some f)).trace := by
  have h := handle_run w f
  revert h hp
  generalize (handleFileUpload w (some f)).trace = T
  intro hp h
  cases h
  case image hx => cases hx <;> simp_all
  case imageThrew hx => cases hx <;> simp_all
  case pdf hx => cases hx <;> simp_all
  case pdfThrew hx => cases hx <;> simp_all
  all_goals simp_all

/-- C10: when the trimmed reply does not begin with the tagged opening
marker, the stripping step returns the trimmed reply itself, and that is the
text a run hands to `JSON.parse`.  In particular a reply that wraps valid
JSON in a bare three-backtick fence (white space allowed around the JSON) is
left as it is, does not parse, and a run whose completion request returns it
ends in the fallback error toast without a storage POST. -/
theorem untagged_fence_not_stripped (content : List Char) :
    (startsWith (trim content) fenceOpen = false →
        structuredData content = trim content
        ∧ ∀ (w : World) (f : File) (p : List Char),
            Effect.call (.completionPost p) none ∈ (handleFileUpload w (some f)).trace →
            w.completion p = .ok content →
            ∃ r, Effect.call (.jsonParse (trim content)) r
              ∈ (handleFileUpload w (some f)).trace)
    ∧ (∀ ws1 j ws2 v, JSON_parse j = some v →
        (∀ c ∈ ws1, isJsWhiteSpace c = true) → (∀ c ∈ ws2, isJsWhiteSpace c = true) →
        content = fenceClose ++ ws1 ++ j ++ ws2 ++ fenceClose →
        startsWith (trim content) fenceOpen = false
        ∧ structuredData content = content
        ∧ JSON_parse (structuredData content) = none
        ∧ ∀ (w : World) (f : File) (p : List Char),
            Effect.call (.completionPost p) none ∈ (handleFileUpload w (some f)).trace →
            w.completion p = .ok content →
            notifications (handleFileUpload w (some f)).trace
              = [.toastError (.text fallbackMessage)]
            ∧ ((handleFileUpload w (some f)).trace.all fun e => !e.isSheetsPost) = true) := by
  have hA : startsWith (trim content) fenceOpen = false → structuredData content = trim content := by
    intro h
    simp [structuredData, h]
  refine ⟨fun h => ⟨hA h, fun w f p hp hw => ?_⟩, ?_⟩
  · rw [← hA h]
    exact reply_is_parsed w f p content hp hw
  intro ws1 j ws2 v hj h1 h2 hc
  have e1 : fenceClose ++ ws1 ++ j ++ ws2 ++ fenceClose
      = fenceClose ++ (ws1 ++ j ++ ws2) ++ fenceClose := by simp
  have ht : trim content = content := by
    rw [hc, e1]
    exact trim_bare_fence _
  have hs : startsWith (trim content) fenceOpen = false := by
    rw [ht, hc]
    exact bare_fence_untagged ws1 j ws2 v hj h1
  have hsd : structuredData content = content := by rw [hA hs, ht]
  have hparse : JSON_parse (structuredData content) = none := by
    rw [hsd, hc]
    exact JSON_parse_backtick _
  exact ⟨hs, hsd, hparse, fun w f p hp hw => unparsable_reply_fails w f p content hp hw hparse⟩

theorem untagged_fence_not_stripped_witness :
    structuredData "```\n\x7b\x7d\n```".toList = "```\n\x7b\x7d\n```".toList
    ∧ JSON_parse (structuredData "```\n\x7b\x7d\n```".toList) = none
    ∧ notifications (handleFileUpload (happyWorld [] "```\n\x7b\x7d\n```".toList 200)
        (some pngFile)).trace = [.toastError (.text fallbackMessage)] :=
  have h := (untagged_fence_not_stripped "```\n\x7b\x7d\n```".toList).2
    ['\n'] "\x7b\x7d".toList ['\n'] (.obj []) rfl (by decide) (by decide) rfl
  ⟨h.2.1, h.2.2.1,
    (h.2.2.2 (happyWorld [] "```\n\x7b\x7d\n```".toList 200) pngFile (prompt [])
      (by
        show _ ∈ ([.setLoading true, .call .recognize none,
          .call (.completionPost (prompt [])) none,
          .call (.jsonParse "```\n\x7b\x7d\n```".toList) (some (.error syntaxError)),
          .toastError (.text fallbackMessage), .setLoading false] : List Effect)
        simp)
      rfl).1⟩

/-! ## Sample runs -/

/-- A rejection with `undefined` at OCR: line 108 throws on `error.response`
and the toast is the one of line 30. -/
theorem nullish_rejection_trace :
    (handleFileUpload nullishOcrWorld (some pngFile)).trace
      = [.setLoading true, .call .recognize (some .nullish),
          .toastError (.text processingMessage), .setLoading false] := rfl

/-- The reply `[1]` parses to an array; when `URLSearchParams` throws on it
the run shows the fallback toast and posts nothing. -/
theorem rejected_encoding_trace :
    (handleFileUpload (failingEncodeWorld [] "[1]".toList ⟨"not iterable".toList, none⟩)
        (some pngFile)).trace
      = [.setLoading true, .call .recognize none, .call (.completionPost (prompt [])) none,
          .call (.jsonParse "[1]".toList) none,
          .call (.urlSearchParams (.arr [.num (.finite false 1 0)]))
            (some (.error ⟨"not iterable".toList, none⟩)),
          .toastError (.text fallbackMessage), .setLoading false] := rfl

/-- In a world where nothing fails, every stage of an image upload is due. -/
theorem happy_png_stages :
    untilFailure (stageSucceeds (happyWorld [] "\x7b\x7d".toList 200)) (pipeline pngFile)
      = [.recognize, .completionPost, .jsonParse, .urlSearchParams, .sheetsPost] := by
  decide

set_option maxRecDepth 10000 in
/-- Property order and repeated names: array indices first and ascending,
then the other names in order of creation; the last value wins. -/
theorem JSON_parse_property_order :
    JSON_parse "\x7b\"b\":1,\"2\":2,\"b\":3,\"1\":4\x7d".toList
      = some (.obj [([0x31], .num (.finite false 1 2)), ([0x32], .num (.finite false 1 1)),
          ([0x62], .num (.finite false 3 0))]) := rfl

/-- An escaped surrogate pair and the character it encodes give the same
string. -/
theorem JSON_parse_surrogate_pair :
    JSON_parse "\"\\ud83d\\ude00\"".toList = some (.str [0xD83D, 0xDE00])
    ∧ JSON_parse [Char.ofNat 0x22, Char.ofNat 0x1F600, Char.ofNat 0x22]
        = some (.str [0xD83D, 0xDE00]) := ⟨rfl, rfl⟩

/-- Number literals denote doubles: `1.0` is the Number 1, `1e2` is 100,
and `0.1` is the nearest double. -/
theorem JSON_parse_numbers :
    JSON_parse "1.0".toList = some (.num (.finite false 1 0))
    ∧ JSON_parse "1e2".toList = some (.num (.finite false 25 2))
    ∧ JSON_parse "100".toList = some (.num (.finite false 25 2))
    ∧ JSON_parse "0.1".toList = some (.num (.finite false 3602879701896397 (-55))) :=
  ⟨rfl, rfl, rfl, rfl⟩

end App
